import Mathlib

/-!
# go-mysql-string-id-mapper: a shallow embedding of `idmapper.go` and `idmapper_p.go`

The mapper keeps a Go map `s2id` (name to id) and a Go slice `id2s` (id to name)
in front of a MySQL table.  The embedding below follows the two source files
function by function.

Modelling conventions

* A Go `string` is the list of its bytes (`GoString`); `len(s)` is the number of
  bytes, `s[:n]` keeps the first `n` bytes and `""` is the empty list.  Literals
  are written `bytes "..."`, the UTF-8 encoding of the text.  Table names and
  character-set names, which the source only concatenates and compares, stay
  Lean strings.
* A Go `map[string]uint32` is an association list.  `mapGet` is the lookup
  `v, has := m[k]`, `mapSet` is the assignment `m[k] = v` (it overwrites the
  entry of an existing key in place and appends a new key), `len(m)` is the
  length of the list.
* `uint32` values are natural numbers; the conversions `uint32(x)` that the
  source performs are written `x % 2 ^ 32`.
* The `sync.RWMutex` is not modelled: every function below is one critical
  section of the source, executed without interference.
* `log.Fatalf` ends the process and an index out of range panics: functions in
  which either can happen return an `Option`, and `none` is that outcome.
* The `database/sql` handle `db` is a transition function on an abstract store
  state (`Driver`); every statement handed to it is also recorded in a list of
  calls, so that "no store call is issued" is the statement that this list is
  empty.
* The field `maxKeySize` (a Go `int`) is a natural number: the source assigns it
  500, 333 or the `CHARACTER_MAXIMUM_LENGTH` of a column, never a negative value.
* The two goroutines of `loadFromTable` share `id2s` and meet on an unbuffered
  channel.  They are interleaved by an explicit schedule (`Schedule`), which
  says how many iterations the consumer performs before each write of the
  producer; at a send the consumer first finishes the watermark it holds.  A
  watermark 0 makes the consumer leave, also when it is the id of a row; the
  loader then returns while the producer may still write, and the schedule says
  how many of these writes the returned mapper shows.  Statements about the
  loader are made for every schedule.
-/

namespace IdMapperSpec

/-! ## Go maps and strings -/

/-- A Go `string`: a sequence of bytes. -/
abbrev GoString := List UInt8

/-- The Go string written by the literal `s`: the bytes of its UTF-8 encoding. -/
def bytes (s : String) : GoString := s.toUTF8.data.toList

/-- The Go map `map[string]uint32`. -/
abbrev GoMap := List (GoString × Nat)

/-- The Go lookup `v, has := m[k]`: `none` when `has` is false. -/
def mapGet (k : GoString) : GoMap → Option Nat
  | [] => none
  | (a, v) :: rest => if k = a then some v else mapGet k rest

/-- The Go assignment `m[k] = v`. -/
def mapSet (k : GoString) (v : Nat) : GoMap → GoMap
  | [] => [(k, v)]
  | (a, w) :: rest => if k = a then (a, v) :: rest else (a, w) :: mapSet k v rest

/-- The Go expression `len(m)` of a map built by `mapSet`. -/
def mapLen (m : GoMap) : Nat := m.length

/-- The keys of a map, in the order of the association list. -/
def mapKeys (m : GoMap) : List GoString := m.map Prod.fst

/-- The Go slice expression `item[:n]` (for `n ≤ len(item)`). -/
def slice (item : GoString) (n : Nat) : GoString := item.take n

/-- The Go statement `if len(item) > n { item = item[:n] }`. -/
def truncate (n : Nat) (item : GoString) : GoString :=
  if item.length > n then slice item n else item

/-! ## `idmapper.go`: constants and the mapper record -/

/-- The constant `INVALID = uint32(0xffffffff)`. -/
def INVALID : Nat := 0xffffffff

/-- The struct `IdMapper` (without its mutex). -/
structure IdMapper where
  tableName : String
  s2id : GoMap
  id2s : List GoString
  maxKeySize : Nat
deriving DecidableEq, Repr

/-! ## The store seen through `database/sql` -/

/-- A Go `error` value as far as the source inspects it: a `*mysql.MySQLError`
with its `Number`, or any other error. -/
inductive GoError where
  | mysql (number : Nat)
  | other (code : Nat)
deriving DecidableEq, Repr

/-- The statements the source sends to the store. -/
inductive Call where
  | createTable (table charset : String) (size : Nat)
  | insert (table : String) (item : GoString)
  | selectIdx (table : String) (item : GoString)
deriving DecidableEq, Repr

/-- The answer of the store to one statement: a value (the `LastInsertId` of
an insert, the scanned `idx` of a select) or an error. -/
inductive Reply where
  | ok (value : Nat)
  | error (e : GoError)
deriving DecidableEq, Repr

/-- The handle `db`: how a store in state `σ` answers a statement and the state
it is left in. -/
abbrev Driver (σ : Type) := σ → Call → σ × Reply

/-! ## `idmapper_p.go` -/

/-- The function `mapperTableName`, with the package variable holding the table
name prefix passed as `pfx`. -/
def mapperTableName (pfx mapperName : String) : String :=
  if pfx.length = 0 then "idmap." ++ mapperName else pfx ++ ".idmap." ++ mapperName

/-- The function `newIdMapper`: empty map, empty slice, `maxKeySize` at its
zero value. -/
def newIdMapper (pfx mapperName : String) : IdMapper :=
  { tableName := mapperTableName pfx mapperName, s2id := [], id2s := [], maxKeySize := 0 }

/-- What `insertItem` hands back: the store state, the statements issued, and
the Go result pair `(idx, err)`. -/
structure InsertOut (σ : Type) where
  db : σ
  calls : List Call
  idx : Nat
  err : Option GoError

/-- The method `insertItem`.  A successful `Exec` returns `uint32(LastInsertId)`
(the MySQL driver returns no error from `LastInsertId`); error 1062 is answered
by selecting the id by name (a failed `Scan`, which includes a value that does
not fit `uint32`, leaves `idx` at 0); error 1366 returns `INVALID` without
error; every other error is returned with `idx = 0`. -/
def insertItem {σ : Type} (d : Driver σ) (db : σ) (mapper : IdMapper) (item : GoString) :
    InsertOut σ :=
  let ins := Call.insert mapper.tableName item
  match d db ins with
  | (db1, Reply.error e) =>
    if e = GoError.mysql 1062 then
      let sel := Call.selectIdx mapper.tableName item
      match d db1 sel with
      | (db2, Reply.ok idx) =>
        if idx < 2 ^ 32 then { db := db2, calls := [ins, sel], idx := idx, err := none }
        else { db := db2, calls := [ins, sel], idx := 0, err := some (GoError.other 0) }
      | (db2, Reply.error e2) => { db := db2, calls := [ins, sel], idx := 0, err := some e2 }
    else if e = GoError.mysql 1366 then
      { db := db1, calls := [ins], idx := INVALID, err := none }
    else
      { db := db1, calls := [ins], idx := 0, err := some e }
  | (db1, Reply.ok id) => { db := db1, calls := [ins], idx := id % 2 ^ 32, err := none }

/-! ## `idmapper.go`: the public operations -/

/-- The method `HasItem`. -/
def HasItem (mapper : IdMapper) (item : GoString) : Nat × Bool :=
  let item := truncate mapper.maxKeySize item
  match mapGet item mapper.s2id with
  | some idx => (idx, true)
  | none => (0, false)

/-- The loop `for int(idx) >= len(id2s) { id2s = append(id2s, make([]string, 100)...) }`,
run for at most `fuel` iterations. -/
def extendLoop : Nat → Nat → List GoString → List GoString
  | 0, _, id2s => id2s
  | fuel + 1, idx, id2s =>
    if idx ≥ id2s.length then extendLoop fuel idx (id2s ++ List.replicate 100 []) else id2s

/-- The extension loop with enough fuel to reach its exit (`extendLoop_length`). -/
def extend (idx : Nat) (id2s : List GoString) : List GoString := extendLoop (idx + 1) idx id2s

/-- What a returning `IdFromItem` leaves behind: the returned id, the mapper,
the store, and the statements it sent to the store. -/
structure Ret (σ : Type) where
  id : Nat
  mapper : IdMapper
  db : σ
  calls : List Call
deriving DecidableEq

/-- The method `IdFromItem`.  `none` is the `log.Fatalf` taken when `insertItem`
returns an error.  The second lookup is the re-check under the write lock. -/
def IdFromItem {σ : Type} (d : Driver σ) (db : σ) (mapper : IdMapper) (item : GoString)
    (addIfNotExist : Bool) : Option (Ret σ) :=
  let item := truncate mapper.maxKeySize item
  match mapGet item mapper.s2id with
  | some idx => some { id := idx, mapper := mapper, db := db, calls := [] }
  | none =>
    if !addIfNotExist then some { id := INVALID, mapper := mapper, db := db, calls := [] }
    else
      match mapGet item mapper.s2id with
      | some idx => some { id := idx, mapper := mapper, db := db, calls := [] }
      | none =>
        let out := insertItem d db mapper item
        match out.err with
        | some _ => none
        | none =>
          if out.idx ≠ INVALID then
            some { id := out.idx,
                   mapper := { mapper with
                     s2id := mapSet item out.idx mapper.s2id,
                     id2s := (extend out.idx mapper.id2s).set out.idx item },
                   db := out.db, calls := out.calls }
          else some { id := out.idx, mapper := mapper, db := out.db, calls := out.calls }

/-- The method `ItemFromId`.  `none` is the panic of `id2s[idx]` out of range. -/
def ItemFromId (mapper : IdMapper) (idx : Nat) : Option (GoString × Bool) :=
  if idx > mapLen mapper.s2id ∨ idx = 0 then some ([], false)
  else
    match mapper.id2s[idx]? with
    | some s => some (s, true)
    | none => none

/-- The method `Items`: the non-empty keys of `s2id`, here in the order of the
association list (Go leaves the order of a map iteration open). -/
def Items (mapper : IdMapper) : List GoString :=
  (mapKeys mapper.s2id).filter (fun s => s.length > 0)

/-! ## `idmapper_p.go`: schema negotiation -/

/-- The constant `UCS2` of `createTable`. -/
def UCS2 : String := "ucs2"

/-- The variables `createTable` works on: the store, the package variable
`supportUCS2`, the mapper (for `maxKeySize`), the local `err`, and the
statements sent so far. -/
structure CreateOut (σ : Type) where
  db : σ
  supportUCS2 : Bool
  mapper : IdMapper
  err : Option GoError
  calls : List Call
deriving DecidableEq

/-- The second half of the loop body of `createTable`: `db.Exec(cquery)` and the
inspection of its error.  The boolean is `false` for `break` and `true` when the
loop goes on to the next character set, which is what happens both at the
`continue` under error 1115 and when the body runs to its end on any other
error. -/
def createExec {σ : Type} (d : Driver σ) (charset : String) (st : CreateOut σ) :
    CreateOut σ × Bool :=
  let cquery := Call.createTable st.mapper.tableName charset st.mapper.maxKeySize
  match d st.db cquery with
  | (db1, Reply.ok _) =>
    ({ st with db := db1, err := none, calls := st.calls ++ [cquery] }, false)
  | (db1, Reply.error e) =>
    let st1 := { st with db := db1, err := some e, calls := st.calls ++ [cquery] }
    if e = GoError.mysql 1115 then
      if charset = UCS2 then ({ st1 with supportUCS2 := false }, true) else (st1, true)
    else (st1, true)

/-- The loop `for _, charset := range ...` of `createTable`.  `none` is the
`panic` of the `default` case. -/
def createTableLoop {σ : Type} (d : Driver σ) : List String → CreateOut σ → Option (CreateOut σ)
  | [], st => some st
  | charset :: rest, st =>
    if charset = UCS2 then
      let st1 := { st with mapper := { st.mapper with maxKeySize := 500 } }
      if !st1.supportUCS2 then createTableLoop d rest st1
      else
        match createExec d charset st1 with
        | (st2, true) => createTableLoop d rest st2
        | (st2, false) => some st2
    else if charset = "utf8" then
      let st1 := { st with mapper := { st.mapper with maxKeySize := 333 } }
      match createExec d charset st1 with
      | (st2, true) => createTableLoop d rest st2
      | (st2, false) => some st2
    else none

/-- The method `createTable`; the field `err` of the result is its return
value. -/
def createTable {σ : Type} (d : Driver σ) (db : σ) (supportUCS2 : Bool) (mapper : IdMapper) :
    Option (CreateOut σ) :=
  createTableLoop d [UCS2, "utf8"]
    { db := db, supportUCS2 := supportUCS2, mapper := mapper, err := none, calls := [] }

/-! ## `idmapper_p.go`: the bulk loader -/

/-- How the two goroutines of `loadFromTable` are interleaved.  Before the row at
position `pos` is written the consumer performs `steps pos` iterations.  `late`
matters only when the consumer has left while rows are still to come: it is the
number of rows the producer goes on to write into the shared `id2s` before the
caller of `loadFromTable`, which `alldone` has released, reads the mapper. -/
structure Schedule where
  steps : Nat → Nat
  late : Nat

/-- The variables shared by the two goroutines of `loadFromTable`.  `target` is
the watermark the consumer `mapperFun` last received (0 before the first one);
`cidx` is its cursor; `left` says that it has received a 0 and left its loop;
`count`, `total` and `idx` belong to the producer `readerFun`; `late` is the
number of writes left to the producer once the consumer has gone. -/
structure LoadState where
  id2s : List GoString
  s2id : GoMap
  alreadyMapped : GoMap
  cidx : Nat
  target : Nat
  count : Nat
  total : Nat
  idx : Nat
  left : Bool
  late : Nat
deriving DecidableEq, Repr

/-- One iteration of the inner loop `for cidx <= idx` of `mapperFun`; nothing
happens once the cursor has passed the watermark.  The read `id2s[cidx]` is in
range because a watermark is the index of a completed write
(`mapperStep_sound`, `readerStep_sound`). -/
def mapperStep (st : LoadState) : LoadState :=
  if st.cidx ≤ st.target then
    let name := st.id2s.getD st.cidx []
    let am :=
      match mapGet name st.s2id with
      | some _ =>
        let am1 :=
          match mapGet name st.alreadyMapped with
          | some _ => st.alreadyMapped
          | none => mapSet name 1 st.alreadyMapped
        mapSet name ((mapGet name am1).getD 0 + 1) am1
      | none => st.alreadyMapped
    { st with alreadyMapped := am, s2id := mapSet name (st.cidx % 2 ^ 32) st.s2id,
              cidx := st.cidx + 1 }
  else st

/-- The consumer runs `n` iterations. -/
def mapperRun : Nat → LoadState → LoadState
  | 0, st => st
  | n + 1, st => mapperRun n (mapperStep st)

/-- The consumer runs until its cursor has passed the watermark. -/
def mapperDrain (st : LoadState) : LoadState := mapperRun (st.target + 1 - st.cidx) st

/-- The send `idxsync <- w` on the unbuffered channel: it completes when the
consumer is back at its receive, that is after it has finished the previous
watermark.  The consumer then takes `w` as its watermark, or leaves its loop
when `w` is 0 (`if idx == 0 { break }`), whether the 0 is the sentinel or the id
of a row.  Once the consumer has left nobody receives: the producer stays in
the send for good and writes no further row. -/
def send (w : Nat) (st : LoadState) : LoadState :=
  if st.left then { st with late := 0 }
  else
    let st1 := mapperDrain st
    if w = 0 then { st1 with left := true } else { st1 with target := w }

/-- One iteration of the row loop of `readerFun`, preceded by the `n` iterations
the consumer performs in the meantime (none once it has left: its cursor is
past its watermark).  After the consumer has left, the row is written only
while the budget `late` lasts.  `none` is the panic of the write
`id2s[idx] = iname` out of range. -/
def readerStep (n : Nat) (row : Nat × GoString) (st : LoadState) : Option LoadState :=
  if st.left = true ∧ st.late = 0 then some st
  else
    let st1 := mapperRun n st
    if row.1 < st1.id2s.length then
      let st2 := { st1 with id2s := st1.id2s.set row.1 row.2, idx := row.1,
                            count := st1.count + 1,
                            late := if st1.left then st1.late - 1 else st1.late }
      if st2.count ≥ 100 * 1000 then
        some (send row.1 { st2 with total := st2.total + st2.count, count := 0 })
      else some st2
    else none

/-- The row loop of `readerFun` under the schedule `sched`: before the row at
position `pos` is written the consumer performs `sched pos` iterations. -/
def readerLoop (sched : Nat → Nat) : Nat → List (Nat × GoString) → LoadState → Option LoadState
  | _, [], st => some st
  | pos, row :: rest, st =>
    match readerStep (sched pos) row st with
    | none => none
    | some st1 => readerLoop sched (pos + 1) rest st1

/-- The state in which the two goroutines are started: `id2s` has `n` empty
slots. -/
def loadInit (n late : Nat) : LoadState :=
  { id2s := List.replicate n [], s2id := [], alreadyMapped := [], cidx := 1, target := 0,
    count := 0, total := 0, idx := 0, left := false, late := late }

/-- The two goroutines up to the moment the caller reads the mapper after
`alldone.Wait()`: the row loop, the last watermark
`if idx != 0 { idxsync <- idx }`, and the sentinel `idxsync <- 0`, at which the
consumer finishes its watermark and leaves (if it has not left before). -/
def pipeline (sched : Schedule) (rows : List (Nat × GoString)) (n : Nat) : Option LoadState :=
  match readerLoop sched.steps 0 rows (loadInit n sched.late) with
  | none => none
  | some st => some (send 0 (if st.idx ≠ 0 then send st.idx st else st))

/-- The answer to the query for `CHARACTER_MAXIMUM_LENGTH`. -/
inductive SizeAnswer where
  | length (n : Nat)
  | noRows
  | failure
deriving DecidableEq, Repr

/-- The answer to `select max(idx)`: an error, no row, a row holding NULL (the
table is empty), or a row holding a number. -/
inductive MaxAnswer where
  | failure (e : GoError)
  | noRow
  | null
  | value (n : Nat)
deriving DecidableEq, Repr

/-- The answer to `select idx,name`: an error of `Prepare` or `Query`, or the
rows in the order the store delivers them. -/
inductive RowsAnswer where
  | failure (e : GoError)
  | rows (rs : List (Nat × GoString))
deriving DecidableEq, Repr

/-- What the store answers to the three queries of one `loadFromTable`. -/
structure Snapshot where
  size : SizeAnswer
  maxIdx : MaxAnswer
  scan : RowsAnswer
deriving DecidableEq, Repr

/-- The errors `loadFromTable` returns. -/
inductive LoadError where
  | notFound
  | sql (e : GoError)
  | noCount
deriving DecidableEq, Repr

/-- The ways `loadFromTable` ends: it returns nil, it returns an error, or the
process ends (`log.Fatal`, or a run outside the model of the pipeline). -/
inductive LoadResult where
  | loaded (m : IdMapper)
  | error (e : LoadError) (m : IdMapper)
  | crashed
deriving DecidableEq, Repr

/-- The method `loadFromTable` against the answers `snap`, the two goroutines
interleaved by `sched`. -/
def loadFromTable (sched : Schedule) (snap : Snapshot) (mapper : IdMapper) : LoadResult :=
  match snap.size with
  | SizeAnswer.noRows => LoadResult.error LoadError.notFound mapper
  | SizeAnswer.failure => LoadResult.crashed
  | SizeAnswer.length size =>
    let mapper1 := { mapper with maxKeySize := size }
    match snap.maxIdx with
    | MaxAnswer.failure e2 => LoadResult.error (LoadError.sql e2) mapper1
    | MaxAnswer.noRow => LoadResult.error LoadError.noCount mapper1
    | answer =>
      let n := match answer with
        | MaxAnswer.value nrows => nrows + 1
        | _ => 0
      match snap.scan with
      | RowsAnswer.failure e => LoadResult.error (LoadError.sql e) mapper1
      | RowsAnswer.rows rs =>
        match pipeline sched rs n with
        | none => LoadResult.crashed
        | some st => LoadResult.loaded { mapper1 with s2id := st.s2id, id2s := st.id2s }

/-! ## The backing table -/

/-- Modelled from the spec: the backing table of section 6 (the MySQL server is
not part of the repository).  One row per interned key, `(idx, name)`, in the
order the rows were inserted, and the next value of the auto-increment
column. -/
structure Table where
  rows : List (Nat × GoString)
  autoInc : Nat
deriving DecidableEq, Repr

/-- Modelled from the spec: `fetchIdByName` of section 6, the id of the row
holding `name`. -/
def Table.fetch (t : Table) (name : GoString) : Option Nat :=
  (t.rows.find? (fun r => r.2 = name)).map Prod.fst

/-- Modelled from the spec: the store contract of section 6 for one table whose
column accepts the names satisfying `encodable`.  `insertRow` answers
`DuplicateKey` (MySQL error 1062) when the name is already stored,
`EncodingRejected` (error 1366) when the column cannot hold it, and otherwise
stores the name under the next auto-increment value and returns that value;
`fetchIdByName` returns the stored id, and no row is `sql.ErrNoRows`;
`createTableIfNotExists` succeeds. -/
def tableDriver (encodable : GoString → Bool) : Driver Table
  | t, Call.insert _ name =>
    if (t.fetch name).isSome then (t, Reply.error (GoError.mysql 1062))
    else if !encodable name then (t, Reply.error (GoError.mysql 1366))
    else ({ rows := t.rows ++ [(t.autoInc, name)], autoInc := t.autoInc + 1 }, Reply.ok t.autoInc)
  | t, Call.selectIdx _ name =>
    match t.fetch name with
    | some id => (t, Reply.ok id)
    | none => (t, Reply.error (GoError.other 1))
  | t, Call.createTable _ _ _ => (t, Reply.ok 0)

/-! ## Invariants and reachable states -/

/-- The mirror is consistent: every pair `(k, id)` of `s2id` with `id != 0` has
`id < len(id2s)` and `id2s[id] == k`. -/
def Consistent (m : IdMapper) : Prop :=
  ∀ k id, mapGet k m.s2id = some id → id ≠ 0 → id < m.id2s.length ∧ m.id2s[id]? = some k

/-- The ids of the mirror are sound: no key occurs twice in the association
list, no id is mapped from two keys, and every mapped id is non-zero and within
`id2s`. -/
def Sound (m : IdMapper) : Prop :=
  (mapKeys m.s2id).Nodup ∧ (m.s2id.map Prod.snd).Nodup ∧
    ∀ p ∈ m.s2id, 1 ≤ p.2 ∧ p.2 < m.id2s.length

/-- The store assigns ids that are non-zero and not already assigned to a
different key: whenever `IdFromItem` on `item` gets as far as `insertItem` and
that call hands back an id to record, the id is not 0 and no key of `s2id` is
mapped to it. -/
def StoreAssigns {σ : Type} (d : Driver σ) (db : σ) (m : IdMapper) (item : GoString) : Prop :=
  mapGet (truncate m.maxKeySize item) m.s2id = none →
  (insertItem d db m (truncate m.maxKeySize item)).err = none →
  (insertItem d db m (truncate m.maxKeySize item)).idx ≠ INVALID →
    (insertItem d db m (truncate m.maxKeySize item)).idx ≠ 0 ∧
    ∀ k, mapGet k m.s2id ≠ some (insertItem d db m (truncate m.maxKeySize item)).idx

/-- The ids of a snapshot fit the column type `int unsigned`. -/
def Fits (snap : Snapshot) : Prop :=
  ∀ n, snap.maxIdx = MaxAnswer.value n → n < 2 ^ 32

/-- The rows carry ids that are at least 1 and strictly ascending in the order
of delivery. -/
def AscendingRows (rs : List (Nat × GoString)) : Prop :=
  (∀ r ∈ rs, 1 ≤ r.1) ∧ rs.Pairwise (fun a b => a.1 < b.1)

/-- The ids of a snapshot fit the column type and its rows are delivered in
strictly ascending id order. -/
def Ascending (snap : Snapshot) : Prop :=
  Fits snap ∧ ∀ rs, snap.scan = RowsAnswer.rows rs → rs.Pairwise (fun a b => a.1 < b.1)

/-- The mapper states a process can reach: a new mapper, a mapper after
`createTable`, a mapper after a successful `loadFromTable` of a snapshot
satisfying `P` (under any interleaving of the two goroutines), and every state
left by a returning `IdFromItem` call for which the store assigns a sound id.
`HasItem`, `ItemFromId` and `Items` leave the mapper as it is, so that calls of
them do not add states. -/
inductive Reach (P : Snapshot → Prop) : IdMapper → Prop where
  | fresh (pfx name : String) : Reach P (newIdMapper pfx name)
  | created {σ : Type} (d : Driver σ) (db : σ) (sup : Bool) (m : IdMapper) (out : CreateOut σ) :
      Reach P m → createTable d db sup m = some out → Reach P out.mapper
  | loaded (sched : Schedule) (snap : Snapshot) (pfx name : String) (m : IdMapper) :
      P snap → loadFromTable sched snap (newIdMapper pfx name) = LoadResult.loaded m → Reach P m
  | idFromItem {σ : Type} (d : Driver σ) (db : σ) (m : IdMapper) (item : GoString) (add : Bool)
      (r : Ret σ) :
      Reach P m → StoreAssigns d db m item → IdFromItem d db m item add = some r →
      Reach P r.mapper

/-- The invariant of the pipeline behind `Sound`: `id2s` keeps its length `L`,
the ids recorded so far are distinct, at least 1 and below the cursor, and
cursor, watermark and last scanned id stay within `id2s`. -/
def LoadSound (L : Nat) (st : LoadState) : Prop :=
  st.id2s.length = L ∧ L ≤ 2 ^ 32 ∧ (mapKeys st.s2id).Nodup ∧ (st.s2id.map Prod.snd).Nodup ∧
  (∀ p ∈ st.s2id, 1 ≤ p.2 ∧ p.2 < st.cidx) ∧ 1 ≤ st.cidx ∧ (st.cidx = 1 ∨ st.cidx ≤ L) ∧
  (st.target = 0 ∨ st.target < L) ∧ (st.idx = 0 ∨ st.idx < L)

/-- The invariant of the pipeline behind `Consistent` when the rows `rest` still
to be delivered are ascending: every recorded pair is below the cursor and
agrees with `id2s`, the cursor has not passed the watermark, the watermark is
at most the last scanned id, all remaining rows lie above that id, and the
consumer has not left. -/
def LoadConsistent (rest : List (Nat × GoString)) (st : LoadState) : Prop :=
  (∀ k v, mapGet k st.s2id = some v → v < st.cidx ∧ st.id2s[v]? = some k) ∧
  st.cidx ≤ st.target + 1 ∧ st.target ≤ st.idx ∧ (∀ r ∈ rest, st.idx < r.1) ∧
  rest.Pairwise (fun a b => a.1 < b.1) ∧ st.left = false

/-- The snapshot of a table holding the rows `(1,"a"), (2,"b"), (3,"c")` in a
column of 500 characters. -/
def abcSnapshot : Snapshot :=
  { size := SizeAnswer.length 500, maxIdx := MaxAnswer.value 3,
    scan := RowsAnswer.rows [(1, bytes "a"), (2, bytes "b"), (3, bytes "c")] }

/-- The mapper `loadFromTable` builds from `abcSnapshot`. -/
def abcMapper : IdMapper :=
  { tableName := "idmap.t", s2id := [(bytes "a", 1), (bytes "b", 2), (bytes "c", 3)],
    id2s := [[], bytes "a", bytes "b", bytes "c"], maxKeySize := 500 }

/-- The table behind `abcSnapshot`. -/
def abcTable : Table := { rows := [(1, bytes "a"), (2, bytes "b"), (3, bytes "c")], autoInc := 4 }

/-- The schedule in which the consumer works only while the producer waits in a
send. -/
def lazySchedule : Schedule := { steps := fun _ => 0, late := 0 }

/-- The schedule in which the consumer performs one iteration between two writes
of the producer. -/
def stepSchedule : Schedule := { steps := fun _ => 1, late := 0 }

/-- A column that accepts every name. -/
def anyName : GoString → Bool := fun _ => true

/-- The name of the row with id `j + 2` in `bigRows`. -/
def rowName (j : Nat) : GoString := bytes "k" ++ bytes (toString j)

/-- A table of 100001 rows whose physical order is not the id order: the rows
with ids 2, 3, ..., 100001 come first and the row with id 1 comes last. -/
def bigRows : List (Nat × GoString) :=
  (List.range 100000).map (fun j => (j + 2, rowName j)) ++ [(1, bytes "a")]

/-- The answers of the store for the table `bigRows`. -/
def bigSnapshot : Snapshot :=
  { size := SizeAnswer.length 500, maxIdx := MaxAnswer.value 100001,
    scan := RowsAnswer.rows bigRows }

/-- The producer has written the rows with ids `2, ..., j + 1` and sent no
watermark yet. -/
def Filling (L j : Nat) (st : LoadState) : Prop :=
  st.left = false ∧ st.count = j ∧ st.target = 0 ∧ st.cidx = 1 ∧ st.s2id = [] ∧
  st.id2s.length = L ∧ st.id2s[1]? = some [] ∧
  ∀ c, 2 ≤ c → c < j + 2 → ∃ s, st.id2s[c]? = some s ∧ s ≠ []

/-- The consumer holds watermark `w`, has not started on it, and the slots
`2, ..., w` of `id2s` hold non-empty names while slot 1 is still empty. -/
def Pending (L w : Nat) (st : LoadState) : Prop :=
  st.left = false ∧ st.count = 0 ∧ st.target = w ∧ st.cidx = 1 ∧ st.s2id = [] ∧
  st.id2s.length = L ∧ st.id2s[1]? = some [] ∧
  ∀ c, 2 ≤ c → c ≤ w → ∃ s, st.id2s[c]? = some s ∧ s ≠ []

/-- The consumer has recorded the empty name under id 1, after which the
producer has written the row `(1, "a")`. -/
def Overtaken (L w : Nat) (st : LoadState) : Prop :=
  st.left = false ∧ st.idx = 1 ∧ st.target = w ∧ st.cidx = 2 ∧ mapGet [] st.s2id = some 1 ∧
  st.id2s.length = L ∧ st.id2s[1]? = some (bytes "a") ∧
  ∀ c, 2 ≤ c → c ≤ w → ∃ s, st.id2s[c]? = some s ∧ s ≠ []

/-- A new mapper after `createTable` succeeded with the wide encoding. -/
def createdMapper : IdMapper :=
  { tableName := "idmap.t", s2id := [], id2s := [], maxKeySize := 500 }

/-- The table right after its creation. -/
def emptyTable : Table := { rows := [], autoInc := 1 }

/-- A column whose character set holds the Basic Multilingual Plane only (as
`ucs2` and the three-byte `utf8` of MySQL do): a name with a four-byte UTF-8
sequence, which starts with a byte from `0xF0` on, is rejected with error
1366. -/
def bmpOnly : GoString → Bool := fun s => s.all (fun b => b < 0xF0)

/-- A key holding the single character `U+1F600`, four bytes in UTF-8. -/
def wideKey : GoString := [0xF0, 0x9F, 0x98, 0x80]

/-- What `IdFromItem(wideKey, true)` leaves on `createdMapper` against a table
that rejects the key: `INVALID`, nothing recorded, one insert sent. -/
def rejectedRet : Ret Table :=
  { id := INVALID, mapper := createdMapper, db := emptyTable,
    calls := [Call.insert "idmap.t" wideKey] }

/-- The table after another process has interned the name `x`. -/
def sharedTable : Table := { rows := [(1, bytes "x")], autoInc := 2 }

/-- What `IdFromItem("k", true)` leaves on `createdMapper` against `sharedTable`:
the store assigns id 2. -/
def sharedRet : Ret Table :=
  { id := 2,
    mapper := { tableName := "idmap.t", s2id := [(bytes "k", 2)],
                id2s := (List.replicate 100 []).set 2 (bytes "k"), maxKeySize := 500 },
    db := { rows := [(1, bytes "x"), (2, bytes "k")], autoInc := 3 },
    calls := [Call.insert "idmap.t" (bytes "k")] }

/-- A table in which the name `k` is stored under id 0. -/
def zeroTable : Table := { rows := [(0, bytes "k")], autoInc := 1 }

/-- What `IdFromItem("k", true)` leaves on `createdMapper` against `zeroTable`:
the insert is answered with error 1062 and the select returns id 0. -/
def zeroRet : Ret Table :=
  { id := 0,
    mapper := { tableName := "idmap.t", s2id := [(bytes "k", 0)],
                id2s := (List.replicate 100 []).set 0 (bytes "k"), maxKeySize := 500 },
    db := zeroTable,
    calls := [Call.insert "idmap.t" (bytes "k"), Call.selectIdx "idmap.t" (bytes "k")] }

/-- What `IdFromItem("d", true)` leaves on `abcMapper` against `abcTable`: the
store assigns id 4. -/
def abcdRet : Ret Table :=
  { id := 4,
    mapper := { tableName := "idmap.t",
                s2id := [(bytes "a", 1), (bytes "b", 2), (bytes "c", 3), (bytes "d", 4)],
                id2s := [[], bytes "a", bytes "b", bytes "c", bytes "d"] ++ List.replicate 99 [],
                maxKeySize := 500 },
    db := { rows := [(1, bytes "a"), (2, bytes "b"), (3, bytes "c"), (4, bytes "d")],
            autoInc := 5 },
    calls := [Call.insert "idmap.t" (bytes "d")] }

/-- The snapshot of a table holding the rows `(1,"a"), (4,"b")`: the ids 2 and 3
are not in use. -/
def gapSnapshot : Snapshot :=
  { size := SizeAnswer.length 500, maxIdx := MaxAnswer.value 4,
    scan := RowsAnswer.rows [(1, bytes "a"), (4, bytes "b")] }

/-- The mapper `loadFromTable` builds from `gapSnapshot`. -/
def gapMapper : IdMapper :=
  { tableName := "idmap.t", s2id := [(bytes "a", 1), ([], 3), (bytes "b", 4)],
    id2s := [[], bytes "a", [], [], bytes "b"], maxKeySize := 500 }

/-- The snapshot of a table whose two rows are delivered out of id order. -/
def baSnapshot : Snapshot :=
  { size := SizeAnswer.length 500, maxIdx := MaxAnswer.value 2,
    scan := RowsAnswer.rows [(2, bytes "b"), (1, bytes "a")] }

/-- The mapper `loadFromTable` builds from `baSnapshot`: the last watermark is the
id 1 of the last row, so that only slot 1 is indexed. -/
def baMapper : IdMapper :=
  { tableName := "idmap.t", s2id := [(bytes "a", 1)], id2s := [[], bytes "a", bytes "b"],
    maxKeySize := 500 }

/-- A store that answers its first statement with MySQL error 1040 (too many
connections) and accepts every later statement.  The state counts the
statements received. -/
def dropFirst : Driver Nat := fun n _ =>
  if n = 0 then (1, Reply.error (GoError.mysql 1040)) else (n + 1, Reply.ok 0)

/-- A store without the character set `ucs2`: creating a table with it fails with
error 1115, every other statement succeeds.  The state counts the statements
received. -/
def noUcs2 : Driver Nat := fun n c =>
  match c with
  | Call.createTable _ charset _ =>
    if charset = UCS2 then (n + 1, Reply.error (GoError.mysql 1115)) else (n + 1, Reply.ok 0)
  | _ => (n + 1, Reply.ok 0)

/-- A mapper on a column of two bytes that has interned the name `é`, which is
two bytes long. -/
def narrowMapper : IdMapper :=
  { tableName := "idmap.t", s2id := [(bytes "é", 1)], id2s := [[], bytes "é"], maxKeySize := 2 }

/-- The lower-case form of an ASCII letter; every other byte is left as it is. -/
def foldByte (b : UInt8) : UInt8 := if 65 ≤ b ∧ b ≤ 90 then b + 32 else b

/-- The name with its ASCII letters in lower case. -/
def foldCase (s : GoString) : GoString := s.map foldByte

/-- The id of the first row whose name equals `name` up to the case of its
letters. -/
def Table.fetchFolded (t : Table) (name : GoString) : Option Nat :=
  (t.rows.find? (fun r => foldCase r.2 = foldCase name)).map Prod.fst

/-- A table whose unique key and whose `where name=?` compare names without
regard to case, as the default collations of MySQL do; the statement of
`createTable` names a character set and no collation.  An insert of a name that
differs from a stored one only in case is answered with error 1062, and the
select by name then returns the id of the stored one. -/
def caseBlindDriver : Driver Table
  | t, Call.insert _ name =>
    if (t.fetchFolded name).isSome then (t, Reply.error (GoError.mysql 1062))
    else ({ rows := t.rows ++ [(t.autoInc, name)], autoInc := t.autoInc + 1 }, Reply.ok t.autoInc)
  | t, Call.selectIdx _ name =>
    match t.fetchFolded name with
    | some id => (t, Reply.ok id)
    | none => (t, Reply.error (GoError.other 1))
  | t, Call.createTable _ _ _ => (t, Reply.ok 0)

/-- The calls `IdFromItem(k, true)` for the keys of a list, one after the other;
`none` when one of them ends the process. -/
def internAll {σ : Type} (d : Driver σ) : List GoString → σ → IdMapper → Option (σ × IdMapper)
  | [], db, m => some (db, m)
  | k :: ks, db, m =>
    match IdFromItem d db m k true with
    | none => none
    | some r => internAll d ks r.db r.mapper

/-- The word `abcdefg` with the letters at the one-bits of `i` in upper case. -/
def caseVariant (i : Nat) : GoString :=
  (List.range 7).map
    (fun j => if (i / 2 ^ j) % 2 = 1 then UInt8.ofNat (65 + j) else UInt8.ofNat (97 + j))

/-- The first 100 case variants of `abcdefg`: 100 distinct keys. -/
def caseVariants : List GoString := (List.range 100).map caseVariant

/-- The error `createTable` returns after a statement answered by `rep`. -/
def replyErr : Reply → Option GoError
  | Reply.ok _ => none
  | Reply.error e => some e

/-- The names of the rows are distinct and non-empty. -/
def DistinctNames (rs : List (Nat × GoString)) : Prop :=
  (rs.map Prod.snd).Nodup ∧ ∀ r ∈ rs, r.2 ≠ []

/-- The invariant of the pipeline behind the completeness of the mirror, for the
rows `done` delivered so far: each of them is in `id2s`, every non-empty slot of
`id2s` is one of them, none has an id above the last scanned id, and those
below the cursor are in `s2id`. -/
def Complete (done : List (Nat × GoString)) (st : LoadState) : Prop :=
  (∀ r ∈ done, st.id2s[r.1]? = some r.2) ∧
  (∀ c s, st.id2s[c]? = some s → s ≠ [] → (c, s) ∈ done) ∧
  (∀ r ∈ done, r.1 ≤ st.idx) ∧
  (∀ r ∈ done, r.1 < st.cidx → mapGet r.2 st.s2id = some r.1)

/-! # Theorems -/

/-! ### Strings and maps -/

theorem slice_length (item : GoString) (n : Nat) : (slice item n).length = min n item.length := by
  simp [slice]

theorem truncate_length_le (n : Nat) (item : GoString) : (truncate n item).length ≤ n := by
  unfold truncate
  split
  · rw [slice_length]; exact Nat.min_le_left _ _
  · omega

theorem truncate_of_le (n : Nat) (item : GoString) (h : item.length ≤ n) : truncate n item = item := by
  unfold truncate
  rw [if_neg (by omega)]

theorem truncate_idem (n : Nat) (item : GoString) : truncate n (truncate n item) = truncate n item :=
  truncate_of_le n _ (truncate_length_le n item)

theorem truncate_of_gt (n : Nat) (item : GoString) (h : item.length > n) :
    truncate n item = slice item n := by
  unfold truncate
  rw [if_pos h]

theorem IdFromItem_truncate {σ : Type} (d : Driver σ) (db : σ) (m : IdMapper) (k : GoString) (add : Bool) :
    IdFromItem d db m (truncate m.maxKeySize k) add = IdFromItem d db m k add := by
  unfold IdFromItem
  simp only [truncate_idem]

theorem mapGet_mapSet_self (k : GoString) (v : Nat) (m : GoMap) : mapGet k (mapSet k v m) = some v := by
  induction m with
  | nil => simp [mapSet, mapGet]
  | cons hd tl ih =>
    obtain ⟨a, w⟩ := hd
    by_cases h : k = a
    · simp [mapSet, mapGet, h]
    · simp [mapSet, mapGet, h, ih]

theorem mapGet_mapSet_ne (k k2 : GoString) (v : Nat) (m : GoMap) (h : k2 ≠ k) :
    mapGet k2 (mapSet k v m) = mapGet k2 m := by
  induction m with
  | nil => simp [mapSet, mapGet, h]
  | cons hd tl ih =>
    obtain ⟨a, w⟩ := hd
    by_cases h1 : k = a
    · subst h1; simp [mapSet, mapGet, h]
    · by_cases h2 : k2 = a
      · simp [mapSet, mapGet, h1, h2]
      · simp [mapSet, mapGet, h1, h2, ih]

theorem mapGet_mem {k : GoString} {v : Nat} {m : GoMap} (h : mapGet k m = some v) : (k, v) ∈ m := by
  induction m with
  | nil => simp [mapGet] at h
  | cons hd tl ih =>
    obtain ⟨a, w⟩ := hd
    by_cases h1 : k = a
    · simp [mapGet, h1] at h
      simp [h1, h]
    · simp [mapGet, h1] at h
      exact List.mem_cons_of_mem _ (ih h)

theorem mapGet_none_of_not_mem {k : GoString} {m : GoMap} (h : k ∉ mapKeys m) : mapGet k m = none := by
  induction m with
  | nil => rfl
  | cons hd tl ih =>
    obtain ⟨a, w⟩ := hd
    simp [mapKeys] at h
    have h2 : k ∉ mapKeys tl := by
      simp [mapKeys]
      exact h.2
    simp [mapGet, h.1, ih h2]

theorem mem_mapGet {k : GoString} {v : Nat} {m : GoMap} (hn : (mapKeys m).Nodup) (h : (k, v) ∈ m) :
    mapGet k m = some v := by
  induction m with
  | nil => simp at h
  | cons hd tl ih =>
    obtain ⟨a, w⟩ := hd
    simp [mapKeys] at hn
    rcases List.mem_cons.1 h with h1 | h1
    · simp at h1
      simp [mapGet, h1.1, h1.2]
    · have hka : k ≠ a := by
        intro e
        subst e
        exact hn.1 v h1
      simp [mapGet, hka]
      exact ih (by simpa [mapKeys] using hn.2) h1

theorem mem_mapSet {k : GoString} {v : Nat} {m : GoMap} {p : GoString × Nat} (h : p ∈ mapSet k v m) :
    p ∈ m ∨ p = (k, v) := by
  induction m with
  | nil => simp [mapSet] at h; simp [h]
  | cons hd tl ih =>
    obtain ⟨a, w⟩ := hd
    by_cases h1 : k = a
    · simp [mapSet, h1] at h
      rcases h with h | h
      · right; simp [h, h1]
      · left; exact List.mem_cons_of_mem _ h
    · simp [mapSet, h1] at h
      rcases h with h | h
      · left; simp [h]
      · rcases ih h with h2 | h2
        · left; exact List.mem_cons_of_mem _ h2
        · right; exact h2

theorem mapKeys_mapSet_mem {k : GoString} {v : Nat} {m : GoMap} {a : GoString}
    (h : a ∈ mapKeys (mapSet k v m)) : a ∈ mapKeys m ∨ a = k := by
  simp only [mapKeys, List.mem_map] at h ⊢
  obtain ⟨p, hp, rfl⟩ := h
  rcases mem_mapSet hp with h1 | h1
  · left; exact ⟨p, h1, rfl⟩
  · right; simp [h1]

theorem mapSet_keys_nodup {k : GoString} {v : Nat} {m : GoMap} (hn : (mapKeys m).Nodup) :
    (mapKeys (mapSet k v m)).Nodup := by
  induction m with
  | nil => simp [mapSet, mapKeys]
  | cons hd tl ih =>
    obtain ⟨a, w⟩ := hd
    have hn2 : a ∉ mapKeys tl ∧ (mapKeys tl).Nodup := by simpa [mapKeys] using hn
    by_cases h1 : k = a
    · simpa [mapSet, h1, mapKeys] using hn
    · simp only [mapSet, h1, if_false, mapKeys, List.map_cons, List.nodup_cons]
      refine ⟨?_, ih hn2.2⟩
      intro hc
      rcases mapKeys_mapSet_mem hc with h2 | h2
      · exact hn2.1 h2
      · exact h1 h2.symm

theorem mapSet_vals_nodup {k : GoString} {v : Nat} {m : GoMap} (hn : (m.map Prod.snd).Nodup)
    (hv : v ∉ m.map Prod.snd) : ((mapSet k v m).map Prod.snd).Nodup := by
  induction m with
  | nil => simp [mapSet]
  | cons hd tl ih =>
    obtain ⟨a, w⟩ := hd
    simp only [List.map_cons, List.nodup_cons, List.mem_cons, not_or] at hn hv
    by_cases h1 : k = a
    · simp only [mapSet, h1, if_true, List.map_cons, List.nodup_cons]
      exact ⟨hv.2, hn.2⟩
    · simp only [mapSet, h1, if_false, List.map_cons, List.nodup_cons]
      refine ⟨?_, ih hn.2 hv.2⟩
      intro hc
      obtain ⟨p, hp, hpw⟩ := List.mem_map.1 hc
      rcases mem_mapSet hp with h2 | h2
      · exact hn.1 (List.mem_map.2 ⟨p, h2, hpw⟩)
      · rw [h2] at hpw
        exact hv.1 hpw

theorem mapSet_length_le (k : GoString) (v : Nat) (m : GoMap) : m.length ≤ (mapSet k v m).length := by
  induction m with
  | nil => simp [mapSet]
  | cons hd tl ih =>
    obtain ⟨a, w⟩ := hd
    by_cases h1 : k = a
    · simp [mapSet, h1]
    · simp [mapSet, h1, ih]

/-! ### The extension loop of `IdFromItem` -/

theorem extendLoop_prefix (fuel idx : Nat) (l : List GoString) :
    ∃ t, extendLoop fuel idx l = l ++ t := by
  induction fuel generalizing l with
  | zero => exact ⟨[], by simp [extendLoop]⟩
  | succ n ih =>
    unfold extendLoop
    split
    · obtain ⟨t, ht⟩ := ih (l ++ List.replicate 100 [])
      exact ⟨List.replicate 100 [] ++ t, by rw [ht, List.append_assoc]⟩
    · exact ⟨[], by simp⟩

theorem extendLoop_length (fuel idx : Nat) (l : List GoString) (h : idx < l.length + fuel) :
    idx < (extendLoop fuel idx l).length := by
  induction fuel generalizing l with
  | zero => simpa [extendLoop] using h
  | succ n ih =>
    unfold extendLoop
    split
    · apply ih
      simp
      omega
    · omega

theorem extend_length (idx : Nat) (l : List GoString) : idx < (extend idx l).length :=
  extendLoop_length _ _ _ (by omega)

theorem extend_length_ge (idx : Nat) (l : List GoString) : l.length ≤ (extend idx l).length := by
  obtain ⟨t, ht⟩ := extendLoop_prefix (idx + 1) idx l
  unfold extend
  rw [ht]
  simp

theorem extend_getElem? (idx : Nat) (l : List GoString) (i : Nat) (h : i < l.length) :
    (extend idx l)[i]? = l[i]? := by
  obtain ⟨t, ht⟩ := extendLoop_prefix (idx + 1) idx l
  unfold extend
  rw [ht, List.getElem?_append_left h]

/-- The four ways in which `IdFromItem` returns: the key is cached; it is absent
and nothing is to be added; the store rejects it (`INVALID`); the store hands
back an id, which is recorded. -/
theorem IdFromItem_cases {σ : Type} {d : Driver σ} {db : σ} {m : IdMapper} {item : GoString}
    {add : Bool} {r : Ret σ} (h : IdFromItem d db m item add = some r) :
    (r.mapper = m ∧ r.db = db ∧ r.calls = [] ∧
      mapGet (truncate m.maxKeySize item) m.s2id = some r.id) ∨
    (r.mapper = m ∧ r.db = db ∧ r.calls = [] ∧ add = false ∧ r.id = INVALID ∧
      mapGet (truncate m.maxKeySize item) m.s2id = none) ∨
    (r.mapper = m ∧ add = true ∧ r.id = INVALID ∧
      mapGet (truncate m.maxKeySize item) m.s2id = none ∧
      (insertItem d db m (truncate m.maxKeySize item)).err = none ∧
      (insertItem d db m (truncate m.maxKeySize item)).idx = INVALID) ∨
    (add = true ∧ mapGet (truncate m.maxKeySize item) m.s2id = none ∧
      (insertItem d db m (truncate m.maxKeySize item)).err = none ∧
      (insertItem d db m (truncate m.maxKeySize item)).idx ≠ INVALID ∧
      r.id = (insertItem d db m (truncate m.maxKeySize item)).idx ∧
      r.mapper = { m with
        s2id := mapSet (truncate m.maxKeySize item) r.id m.s2id,
        id2s := (extend r.id m.id2s).set r.id (truncate m.maxKeySize item) }) := by
  unfold IdFromItem at h
  cases hg : mapGet (truncate m.maxKeySize item) m.s2id with
  | some idx =>
    simp [hg] at h
    subst h
    simp
  | none =>
    cases add with
    | false =>
      simp [hg] at h
      subst h
      simp
    | true =>
      simp [hg] at h
      cases he : (insertItem d db m (truncate m.maxKeySize item)).err with
      | some e => simp [he] at h
      | none =>
        simp [he] at h
        by_cases hi : (insertItem d db m (truncate m.maxKeySize item)).idx = INVALID
        · simp [hi] at h
          subst h
          simp [hi]
        · simp [hi] at h
          subst h
          simp [hi]

/-! ### Preservation by `IdFromItem` -/

theorem IdFromItem_sound {σ : Type} {d : Driver σ} {db : σ} {m : IdMapper} {item : GoString}
    {add : Bool} {r : Ret σ} (hs : Sound m) (ha : StoreAssigns d db m item)
    (h : IdFromItem d db m item add = some r) : Sound r.mapper := by
  rcases IdFromItem_cases h with h1 | h1 | h1 | h1
  · rw [h1.1]; exact hs
  · rw [h1.1]; exact hs
  · rw [h1.1]; exact hs
  · obtain ⟨_, hg, he, hi, hid, hm⟩ := h1
    obtain ⟨hk, hv, hb⟩ := hs
    have hA := ha hg he hi
    rw [← hid] at hA
    have hfresh : r.id ∉ m.s2id.map Prod.snd := by
      intro hc
      obtain ⟨p, hp, hpv⟩ := List.mem_map.1 hc
      have : mapGet p.1 m.s2id = some p.2 := mem_mapGet hk hp
      rw [hpv] at this
      exact hA.2 p.1 this
    rw [hm]
    refine ⟨mapSet_keys_nodup hk, mapSet_vals_nodup hv hfresh, ?_⟩
    intro p hp
    simp only [List.length_set]
    rcases mem_mapSet hp with h2 | h2
    · have := hb p h2
      have := extend_length_ge r.id m.id2s
      omega
    · rw [h2]
      simp only
      have := extend_length r.id m.id2s
      omega

theorem IdFromItem_consistent {σ : Type} {d : Driver σ} {db : σ} {m : IdMapper} {item : GoString}
    {add : Bool} {r : Ret σ} (hc : Consistent m) (ha : StoreAssigns d db m item)
    (h : IdFromItem d db m item add = some r) : Consistent r.mapper := by
  rcases IdFromItem_cases h with h1 | h1 | h1 | h1
  · rw [h1.1]; exact hc
  · rw [h1.1]; exact hc
  · rw [h1.1]; exact hc
  · obtain ⟨_, hg, he, hi, hid, hm⟩ := h1
    have hA := ha hg he hi
    rw [← hid] at hA
    rw [hm]
    intro k id hk hid0
    simp only at hk ⊢
    simp only [List.length_set]
    by_cases hkk : k = truncate m.maxKeySize item
    · subst hkk
      rw [mapGet_mapSet_self] at hk
      have hid2 : r.id = id := by simpa using hk
      rw [← hid2]
      have hl := extend_length r.id m.id2s
      refine ⟨hl, ?_⟩
      rw [List.getElem?_set_self hl]
    · rw [mapGet_mapSet_ne _ _ _ _ hkk] at hk
      obtain ⟨hlt, hget⟩ := hc k id hk hid0
      have hne : r.id ≠ id := by
        intro e
        rw [← e] at hk
        exact hA.2 k hk
      refine ⟨lt_of_lt_of_le hlt (extend_length_ge _ _), ?_⟩
      rw [List.getElem?_set_ne hne, extend_getElem? _ _ _ hlt, hget]

/-- A duplicate-free list of numbers between 1 and `n - 1` has fewer than `n` elements. -/
theorem nodup_length_lt {l : List Nat} {n : Nat} (hn : l.Nodup) (hb : ∀ x ∈ l, 1 ≤ x ∧ x < n)
    (hne : l ≠ []) : l.length < n := by
  have hsub : l.toFinset ⊆ Finset.Ico 1 n := by
    intro x hx
    rw [List.mem_toFinset] at hx
    rw [Finset.mem_Ico]
    exact hb x hx
  have hcard := Finset.card_le_card hsub
  rw [List.toFinset_card_of_nodup hn, Nat.card_Ico] at hcard
  obtain ⟨x, hx⟩ := List.exists_mem_of_ne_nil l hne
  have := hb x hx
  omega

theorem sound_mapLen_lt {m : IdMapper} (hs : Sound m) (hne : m.s2id ≠ []) :
    mapLen m.s2id < m.id2s.length := by
  obtain ⟨_, hv, hb⟩ := hs
  have := nodup_length_lt (l := m.s2id.map Prod.snd) (n := m.id2s.length) hv
    (by
      intro x hx
      obtain ⟨p, hp, rfl⟩ := List.mem_map.1 hx
      exact hb p hp)
    (by simpa using hne)
  simpa [mapLen] using this

theorem sound_mapLen_lt_of_bound {m : IdMapper} (hs : Sound m) (id : Nat)
    (hid : ∀ k v, mapGet k m.s2id = some v → v < id) (hne : m.s2id ≠ []) :
    mapLen m.s2id < id := by
  obtain ⟨hk, hv, hb⟩ := hs
  have := nodup_length_lt (l := m.s2id.map Prod.snd) (n := id) hv
    (by
      intro x hx
      obtain ⟨p, hp, rfl⟩ := List.mem_map.1 hx
      exact ⟨(hb p hp).1, hid p.1 p.2 (mem_mapGet hk hp)⟩)
    (by simpa using hne)
  simpa [mapLen] using this

/-! ### The bulk loader -/

theorem mapperStep_sound {L : Nat} {st : LoadState} (h : LoadSound L st) :
    LoadSound L (mapperStep st) := by
  unfold mapperStep
  split
  · rename_i hle
    obtain ⟨hl, hL, hk, hv, hb, hc1, hc, ht, hi⟩ := h
    have htl : st.target < L := by omega
    have hmod : st.cidx % 2 ^ 32 = st.cidx := Nat.mod_eq_of_lt (by omega)
    refine ⟨hl, hL, mapSet_keys_nodup hk, mapSet_vals_nodup hv ?_, ?_, ?_, ?_, ht, hi⟩
    · rw [hmod]
      intro hx
      obtain ⟨p, hp, hpv⟩ := List.mem_map.1 hx
      have := (hb p hp).2
      omega
    · intro p hp
      simp only at hp ⊢
      rcases mem_mapSet hp with h2 | h2
      · have := hb p h2
        omega
      · rw [h2, hmod]
        simp only
        omega
    · simp only
      omega
    · right
      simp only
      omega
  · exact h

theorem mapperRun_sound {L : Nat} (n : Nat) {st : LoadState} (h : LoadSound L st) :
    LoadSound L (mapperRun n st) := by
  induction n generalizing st with
  | zero => exact h
  | succ n ih => exact ih (mapperStep_sound h)

theorem mapperRun_left (n : Nat) (st : LoadState) : (mapperRun n st).left = st.left := by
  induction n generalizing st with
  | zero => rfl
  | succ n ih =>
    rw [mapperRun, ih]
    unfold mapperStep
    split <;> rfl

theorem send_of_not_left (w : Nat) (st : LoadState) (hl : st.left = false) (hw : w ≠ 0) :
    send w st = { mapperDrain st with target := w } := by
  unfold send
  rw [hl]
  simp [hw]

theorem send_zero_of_not_left (st : LoadState) (hl : st.left = false) :
    send 0 st = { mapperDrain st with left := true } := by
  unfold send
  rw [hl]
  simp

/-- With the consumer still in its loop an iteration of the row loop is the
write followed, at a full batch, by the send of the row's id. -/
theorem readerStep_of_not_left (n : Nat) (row : Nat × GoString) (st : LoadState)
    (hl : st.left = false) :
    readerStep n row st =
      if row.1 < (mapperRun n st).id2s.length then
        if (mapperRun n st).count + 1 ≥ 100 * 1000 then
          some (send row.1 { mapperRun n st with
            id2s := (mapperRun n st).id2s.set row.1 row.2, idx := row.1, count := 0,
            total := (mapperRun n st).total + ((mapperRun n st).count + 1) })
        else
          some { mapperRun n st with
            id2s := (mapperRun n st).id2s.set row.1 row.2, idx := row.1,
            count := (mapperRun n st).count + 1 }
      else none := by
  unfold readerStep
  have hl2 := mapperRun_left n st
  rw [hl] at hl2
  simp only [hl, hl2, Bool.false_eq_true, false_and, if_false]

theorem send_sound {L w : Nat} {st : LoadState} (h : LoadSound L st) (hw : w = 0 ∨ w < L) :
    LoadSound L (send w st) := by
  unfold send
  split
  · exact h
  · obtain ⟨hl, hL, hk, hv, hb, hc1, hc, ht, hi⟩ := mapperRun_sound (st.target + 1 - st.cidx) h
    simp only [mapperDrain]
    split
    · exact ⟨hl, hL, hk, hv, hb, hc1, hc, ht, hi⟩
    · rename_i h0
      exact ⟨hl, hL, hk, hv, hb, hc1, hc, Or.inr (by show w < L; omega), hi⟩

theorem readerStep_sound {L n : Nat} {row : Nat × GoString} {st st1 : LoadState}
    (h : LoadSound L st) (hs : readerStep n row st = some st1) : LoadSound L st1 := by
  unfold readerStep at hs
  split at hs
  · simp only [Option.some.injEq] at hs
    subst hs
    exact h
  · have h1 := mapperRun_sound n h
    obtain ⟨hl, hL, hk, hv, hb, hc1, hc, ht, hi⟩ := h1
    simp only at hs
    by_cases hr : row.1 < (mapperRun n st).id2s.length
    · simp only [hr, if_true] at hs
      have hrL : row.1 < L := by omega
      split at hs
      · simp only [Option.some.injEq] at hs
        subst hs
        refine send_sound ?_ (Or.inr hrL)
        exact ⟨by simpa using hl, hL, hk, hv, hb, hc1, hc, ht, Or.inr hrL⟩
      · simp only [Option.some.injEq] at hs
        subst hs
        exact ⟨by simpa using hl, hL, hk, hv, hb, hc1, hc, ht, Or.inr hrL⟩
    · simp [hr] at hs

theorem readerLoop_sound {L : Nat} (sched : Nat → Nat) (pos : Nat) (rows : List (Nat × GoString))
    {st st1 : LoadState} (h : LoadSound L st) (hs : readerLoop sched pos rows st = some st1) :
    LoadSound L st1 := by
  induction rows generalizing pos st with
  | nil =>
    simp only [readerLoop, Option.some.injEq] at hs
    subst hs
    exact h
  | cons row rest ih =>
    unfold readerLoop at hs
    cases hr : readerStep (sched pos) row st with
    | none => simp [hr] at hs
    | some st2 =>
      simp only [hr] at hs
      exact ih (pos + 1) (readerStep_sound h hr) hs

theorem loadInit_sound (L late : Nat) (hL : L ≤ 2 ^ 32) : LoadSound L (loadInit L late) := by
  refine ⟨by simp [loadInit], hL, by simp [loadInit, mapKeys], by simp [loadInit],
    ?_, ?_, ?_, ?_, ?_⟩ <;> simp [loadInit]

theorem loadSound_idx {L : Nat} {st : LoadState} (h : LoadSound L st) :
    st.idx = 0 ∨ st.idx < L :=
  h.2.2.2.2.2.2.2.2

theorem pipeline_sound {L : Nat} (hL : L ≤ 2 ^ 32) (sched : Schedule)
    (rows : List (Nat × GoString)) {st : LoadState} (hs : pipeline sched rows L = some st) :
    LoadSound L st := by
  unfold pipeline at hs
  cases hr : readerLoop sched.steps 0 rows (loadInit L sched.late) with
  | none => simp [hr] at hs
  | some st1 =>
    simp only [hr, Option.some.injEq] at hs
    subst hs
    have h1 := readerLoop_sound sched.steps 0 rows (loadInit_sound L sched.late hL) hr
    refine send_sound ?_ (Or.inl rfl)
    split
    · exact send_sound h1 (loadSound_idx h1)
    · exact h1

theorem loadSound_values {L : Nat} {st : LoadState} (h : LoadSound L st) :
    ∀ p ∈ st.s2id, 1 ≤ p.2 ∧ p.2 < st.id2s.length := by
  obtain ⟨hl, hL, hk, hv, hb, hc1, hc, ht, hi⟩ := h
  intro p hp
  have := hb p hp
  omega

theorem mapperStep_consistent {L : Nat} {rest : List (Nat × GoString)} {st : LoadState}
    (hs : LoadSound L st) (h : LoadConsistent rest st) : LoadConsistent rest (mapperStep st) := by
  unfold mapperStep
  split
  · rename_i hle
    obtain ⟨hl, hL, _, _, _, hc1, _, ht, _⟩ := hs
    obtain ⟨hm, hct, hti, hr, hp, hleft⟩ := h
    have hlt : st.cidx < st.id2s.length := by omega
    have hmod : st.cidx % 2 ^ 32 = st.cidx := Nat.mod_eq_of_lt (by omega)
    have hname : st.id2s[st.cidx]? = some (st.id2s.getD st.cidx []) := by
      rw [List.getD_eq_getElem?_getD, List.getElem?_eq_getElem hlt]
      rfl
    refine ⟨?_, by simp only; omega, hti, hr, hp, hleft⟩
    intro k v hk
    simp only at hk ⊢
    by_cases hkn : k = st.id2s.getD st.cidx []
    · subst hkn
      rw [mapGet_mapSet_self, hmod] at hk
      have hv : st.cidx = v := by simpa using hk
      subst hv
      exact ⟨by omega, hname⟩
    · rw [mapGet_mapSet_ne _ _ _ _ hkn] at hk
      have := hm k v hk
      exact ⟨by omega, this.2⟩
  · exact h

theorem mapperRun_consistent {L : Nat} {rest : List (Nat × GoString)} (n : Nat) {st : LoadState}
    (hs : LoadSound L st) (h : LoadConsistent rest st) : LoadConsistent rest (mapperRun n st) := by
  induction n generalizing st with
  | zero => exact h
  | succ n ih => exact ih (mapperStep_sound hs) (mapperStep_consistent hs h)

theorem mapperRun_idx (n : Nat) (st : LoadState) : (mapperRun n st).idx = st.idx := by
  induction n generalizing st with
  | zero => rfl
  | succ n ih =>
    rw [mapperRun, ih]
    unfold mapperStep
    split <;> rfl

theorem send_consistent {L : Nat} {rest : List (Nat × GoString)} {st : LoadState}
    (hs : LoadSound L st) (h : LoadConsistent rest st) (h0 : st.idx ≠ 0) :
    LoadConsistent rest (send st.idx st) := by
  rw [send_of_not_left _ _ h.2.2.2.2.2 h0]
  unfold mapperDrain
  have hidx := mapperRun_idx (st.target + 1 - st.cidx) st
  obtain ⟨hm, hct, hti, hr, hp, hleft⟩ := mapperRun_consistent (st.target + 1 - st.cidx) hs h
  rw [hidx] at hti hr
  refine ⟨hm, ?_, ?_, ?_, hp, hleft⟩
  · simp only
    omega
  · simp only
    rw [hidx]
  · simp only
    rw [hidx]
    exact hr

theorem readerStep_consistent {L n : Nat} {row : Nat × GoString} {rest : List (Nat × GoString)}
    {st st1 : LoadState} (hs : LoadSound L st) (h : LoadConsistent (row :: rest) st)
    (hstep : readerStep n row st = some st1) : LoadConsistent rest st1 := by
  rw [readerStep_of_not_left n row st h.2.2.2.2.2] at hstep
  have hs1 := mapperRun_sound n hs
  obtain ⟨hm, hct, hti, hr, hp, hleft⟩ := mapperRun_consistent n hs h
  by_cases hrow : row.1 < (mapperRun n st).id2s.length
  · simp only [hrow, if_true] at hstep
    have hgt : (mapperRun n st).idx < row.1 := hr row (List.mem_cons_self _ _)
    have hp2 := List.pairwise_cons.1 hp
    have hwrite : ∀ c t : Nat, LoadConsistent rest
        { mapperRun n st with
          id2s := (mapperRun n st).id2s.set row.1 row.2, idx := row.1, count := c, total := t } := by
      intro c t
      refine ⟨?_, hct, by simp only; omega, ?_, hp2.2, hleft⟩
      · intro k v hk
        have := hm k v hk
        refine ⟨this.1, ?_⟩
        simp only
        rw [List.getElem?_set_ne (by omega)]
        exact this.2
      · intro r hr2
        exact hp2.1 r hr2
    have hsw : ∀ c t : Nat, LoadSound L
        { mapperRun n st with
          id2s := (mapperRun n st).id2s.set row.1 row.2, idx := row.1, count := c, total := t } := by
      intro c t
      obtain ⟨hl, hL, hk, hv, hb, hc1, hc, ht, hi⟩ := hs1
      exact ⟨by simpa using hl, hL, hk, hv, hb, hc1, hc, ht, Or.inr (by show row.1 < L; omega)⟩
    split at hstep
    · simp only [Option.some.injEq] at hstep
      subst hstep
      exact @send_consistent L rest { mapperRun n st with
          id2s := (mapperRun n st).id2s.set row.1 row.2, idx := row.1,
          count := 0, total := (mapperRun n st).total + ((mapperRun n st).count + 1) }
        (hsw _ _) (hwrite _ _) (by show row.1 ≠ 0; omega)
    · simp only [Option.some.injEq] at hstep
      subst hstep
      exact hwrite _ _
  · simp [hrow] at hstep

theorem readerLoop_consistent {L : Nat} (sched : Nat → Nat) (pos : Nat)
    (rows : List (Nat × GoString)) {st st1 : LoadState} (hs : LoadSound L st)
    (h : LoadConsistent rows st) (hl : readerLoop sched pos rows st = some st1) :
    LoadConsistent [] st1 := by
  induction rows generalizing pos st with
  | nil =>
    simp only [readerLoop, Option.some.injEq] at hl
    subst hl
    exact h
  | cons row rest ih =>
    unfold readerLoop at hl
    cases hr : readerStep (sched pos) row st with
    | none => simp [hr] at hl
    | some st2 =>
      simp only [hr] at hl
      exact ih (pos + 1) (readerStep_sound hs hr) (readerStep_consistent hs h hr) hl

theorem loadInit_consistent (L late : Nat) (rows : List (Nat × GoString))
    (ha : AscendingRows rows) : LoadConsistent rows (loadInit L late) := by
  refine ⟨?_, by simp [loadInit], by simp [loadInit], ?_, ha.2, rfl⟩
  · intro k v hk
    simp [loadInit, mapGet] at hk
  · intro r hr
    have := ha.1 r hr
    simp only [loadInit]
    omega

theorem mapperRun_idle (n : Nat) (st : LoadState) (h : st.target < st.cidx) :
    mapperRun n st = st := by
  induction n with
  | zero => rfl
  | succ n ih =>
    have : mapperStep st = st := by
      unfold mapperStep
      rw [if_neg (by omega)]
    rw [mapperRun, this, ih]

/-- The row loop on strictly ascending rows keeps the consistency invariant.  A
first row with id 0 is written to slot 0 while the consumer is still waiting
for its first watermark; every later row has an id of at least 1. -/
theorem readerLoop_ordered {L : Nat} (hL : L ≤ 2 ^ 32) (sched : Nat → Nat) (late : Nat)
    (rows : List (Nat × GoString)) (hp : rows.Pairwise (fun a b => a.1 < b.1)) {st1 : LoadState}
    (hl : readerLoop sched 0 rows (loadInit L late) = some st1) : LoadConsistent [] st1 := by
  cases rows with
  | nil =>
    exact readerLoop_consistent sched 0 [] (loadInit_sound L late hL)
      (loadInit_consistent L late [] ⟨by simp, List.Pairwise.nil⟩) hl
  | cons row rest =>
    have hp2 := List.pairwise_cons.1 hp
    by_cases h0 : 1 ≤ row.1
    · refine readerLoop_consistent sched 0 (row :: rest) (loadInit_sound L late hL)
        (loadInit_consistent L late (row :: rest) ⟨?_, hp⟩) hl
      intro r hr
      rcases List.mem_cons.1 hr with h | h
      · rw [h]
        exact h0
      · have := hp2.1 r h
        omega
    · unfold readerLoop at hl
      cases hr : readerStep (sched 0) row (loadInit L late) with
      | none => simp [hr] at hl
      | some st2 =>
        simp only [hr] at hl
        have hs2 := readerStep_sound (loadInit_sound L late hL) hr
        refine readerLoop_consistent sched 1 rest hs2 ?_ hl
        rw [readerStep_of_not_left _ _ _ rfl,
          mapperRun_idle _ _ (by simp [loadInit])] at hr
        by_cases hrow : row.1 < (loadInit L late).id2s.length
        · rw [if_pos hrow, if_neg (by simp [loadInit])] at hr
          simp only [Option.some.injEq] at hr
          subst hr
          refine ⟨?_, by simp [loadInit], by simp [loadInit], ?_, hp2.2, rfl⟩
          · intro k v hk
            simp [loadInit, mapGet] at hk
          · intro r hr2
            have := hp2.1 r hr2
            show row.1 < r.1
            exact this
        · rw [if_neg hrow] at hr
          cases hr

/-- The state in which the row loop ends when the rows are strictly ascending, and the
shape of the state the pipeline then returns: the last watermark is sent unless
no row was read, and the consumer leaves at the sentinel. -/
theorem pipeline_ascending {L : Nat} (hL : L ≤ 2 ^ 32) (sched : Schedule)
    (rows : List (Nat × GoString)) (ha : rows.Pairwise (fun a b => a.1 < b.1)) {st : LoadState}
    (hs : pipeline sched rows L = some st) :
    ∃ st1 st2, readerLoop sched.steps 0 rows (loadInit L sched.late) = some st1 ∧
      st2 = (if st1.idx ≠ 0 then send st1.idx st1 else st1) ∧
      LoadSound L st2 ∧ LoadConsistent [] st2 ∧ st2.idx = st1.idx ∧
      (st1.idx ≠ 0 → st2.target = st1.idx) ∧
      st = { mapperDrain st2 with left := true } := by
  unfold pipeline at hs
  cases hr : readerLoop sched.steps 0 rows (loadInit L sched.late) with
  | none => simp [hr] at hs
  | some st1 =>
    simp only [hr, Option.some.injEq] at hs
    have h1 := readerLoop_sound sched.steps 0 rows (loadInit_sound L sched.late hL) hr
    have h2 := readerLoop_ordered hL sched.steps sched.late rows ha hr
    refine ⟨st1, _, rfl, rfl, ?_, ?_, ?_, ?_, ?_⟩
    · split
      · exact send_sound h1 (loadSound_idx h1)
      · exact h1
    · split
      · rename_i h0
        exact send_consistent h1 h2 h0
      · exact h2
    · split
      · rename_i h0
        rw [send_of_not_left _ _ h2.2.2.2.2.2 h0]
        show (mapperDrain st1).idx = st1.idx
        unfold mapperDrain
        rw [mapperRun_idx]
      · rfl
    · intro h0
      rw [if_pos h0, send_of_not_left _ _ h2.2.2.2.2.2 h0]
    · rw [← hs]
      apply send_zero_of_not_left
      split
      · rename_i h0
        exact (send_consistent h1 h2 h0).2.2.2.2.2
      · exact h2.2.2.2.2.2

theorem pipeline_consistent {L : Nat} (hL : L ≤ 2 ^ 32) (sched : Schedule)
    (rows : List (Nat × GoString)) (ha : rows.Pairwise (fun a b => a.1 < b.1)) {st : LoadState}
    (hs : pipeline sched rows L = some st) :
    ∀ k v, mapGet k st.s2id = some v → v < st.cidx ∧ st.id2s[v]? = some k := by
  obtain ⟨st1, st2, _, _, hs2, hc2, _, _, hst⟩ := pipeline_ascending hL sched rows ha hs
  rw [hst]
  exact (mapperRun_consistent (st2.target + 1 - st2.cidx) hs2 hc2).1

/-! ### Initial states -/

theorem loadFromTable_pipeline {sched : Schedule} {snap : Snapshot} {m0 m : IdMapper}
    (h : loadFromTable sched snap m0 = LoadResult.loaded m) :
    ∃ rs n st, snap.scan = RowsAnswer.rows rs ∧ pipeline sched rs n = some st ∧
      m.s2id = st.s2id ∧ m.id2s = st.id2s ∧
      (n = 0 ∨ ∃ nrows, snap.maxIdx = MaxAnswer.value nrows ∧ n = nrows + 1) := by
  unfold loadFromTable at h
  cases hsz : snap.size with
  | noRows => simp [hsz] at h
  | failure => simp [hsz] at h
  | length size =>
    simp only [hsz] at h
    cases hmx : snap.maxIdx with
    | failure e => simp [hmx] at h
    | noRow => simp [hmx] at h
    | null =>
      simp only [hmx] at h
      cases hsc : snap.scan with
      | failure e => simp [hsc] at h
      | rows rs =>
        simp only [hsc] at h
        cases hp : pipeline sched rs 0 with
        | none => simp [hp] at h
        | some st =>
          simp only [hp, LoadResult.loaded.injEq] at h
          subst h
          exact ⟨rs, 0, st, rfl, hp, rfl, rfl, Or.inl rfl⟩
    | value nrows =>
      simp only [hmx] at h
      cases hsc : snap.scan with
      | failure e => simp [hsc] at h
      | rows rs =>
        simp only [hsc] at h
        cases hp : pipeline sched rs (nrows + 1) with
        | none => simp [hp] at h
        | some st =>
          simp only [hp, LoadResult.loaded.injEq] at h
          subst h
          exact ⟨rs, nrows + 1, st, rfl, hp, rfl, rfl, Or.inr ⟨nrows, rfl, rfl⟩⟩

theorem loadFromTable_sound {sched : Schedule} {snap : Snapshot} {m0 m : IdMapper}
    (hf : Fits snap) (h : loadFromTable sched snap m0 = LoadResult.loaded m) : Sound m := by
  obtain ⟨rs, n, st, _, hp, hs, hi, hn⟩ := loadFromTable_pipeline h
  have hL : n ≤ 2 ^ 32 := by
    rcases hn with h0 | ⟨nrows, hmx, hn⟩
    · omega
    · have := hf nrows hmx
      omega
  have hps := pipeline_sound hL sched rs hp
  have hv := loadSound_values hps
  obtain ⟨_, _, hk, hvn, _⟩ := hps
  unfold Sound
  rw [hs, hi]
  exact ⟨hk, hvn, hv⟩

theorem loadFromTable_consistent {sched : Schedule} {snap : Snapshot} {m0 m : IdMapper}
    (ha : Ascending snap) (h : loadFromTable sched snap m0 = LoadResult.loaded m) :
    Consistent m := by
  obtain ⟨rs, n, st, hsc, hp, hs, hi, hn⟩ := loadFromTable_pipeline h
  have hL : n ≤ 2 ^ 32 := by
    rcases hn with h0 | ⟨nrows, hmx, hn⟩
    · omega
    · have := ha.1 nrows hmx
      omega
  have hc := pipeline_consistent hL sched rs (ha.2 rs hsc) hp
  intro k id hk _
  rw [hs] at hk
  rw [hi]
  have := (hc k id hk).2
  refine ⟨?_, this⟩
  by_contra hlt
  rw [List.getElem?_eq_none (by omega)] at this
  simp at this

theorem createExec_mapper {σ : Type} (d : Driver σ) (charset : String) (st : CreateOut σ) :
    (createExec d charset st).1.mapper = st.mapper := by
  unfold createExec
  simp only
  generalize d st.db (Call.createTable st.mapper.tableName charset st.mapper.maxKeySize) = x
  obtain ⟨db1, rep⟩ := x
  cases rep with
  | ok v => rfl
  | error e =>
    simp only
    split_ifs <;> rfl

theorem createTableLoop_mirror {σ : Type} (d : Driver σ) (cs : List String) (st out : CreateOut σ)
    (h : createTableLoop d cs st = some out) :
    out.mapper.s2id = st.mapper.s2id ∧ out.mapper.id2s = st.mapper.id2s := by
  induction cs generalizing st with
  | nil =>
    simp only [createTableLoop, Option.some.injEq] at h
    subst h
    exact ⟨rfl, rfl⟩
  | cons c rest ih =>
    have key : ∀ st1 : CreateOut σ, st1.mapper.s2id = st.mapper.s2id →
        st1.mapper.id2s = st.mapper.id2s →
        (match createExec d c st1 with
          | (st2, true) => createTableLoop d rest st2
          | (st2, false) => some st2) = some out →
        out.mapper.s2id = st.mapper.s2id ∧ out.mapper.id2s = st.mapper.id2s := by
      intro st1 e1 e2 hm
      have hx := createExec_mapper d c st1
      rcases hce : createExec d c st1 with ⟨st2, b⟩
      rw [hce] at hx hm
      simp only at hx
      cases b with
      | true =>
        simp only at hm
        have h2 := ih _ hm
        rw [hx, e1, e2] at h2
        exact h2
      | false =>
        simp only [Option.some.injEq] at hm
        subst hm
        rw [hx]
        exact ⟨e1, e2⟩
    unfold createTableLoop at h
    split at h
    · simp only at h
      split at h
      · have h2 := ih _ h
        exact h2
      · exact key { st with mapper := { st.mapper with maxKeySize := 500 } } rfl rfl h
    · split at h
      · exact key { st with mapper := { st.mapper with maxKeySize := 333 } } rfl rfl h
      · simp at h

theorem createTable_mirror {σ : Type} {d : Driver σ} {db : σ} {sup : Bool} {m : IdMapper}
    {out : CreateOut σ} (h : createTable d db sup m = some out) :
    out.mapper.s2id = m.s2id ∧ out.mapper.id2s = m.id2s :=
  createTableLoop_mirror d _ _ out h

/-! ### Reachable states -/

theorem reach_sound {P : Snapshot → Prop} (hP : ∀ snap, P snap → Fits snap) {m : IdMapper}
    (h : Reach P m) : Sound m := by
  induction h with
  | fresh pfx name => simp [Sound, newIdMapper, mapKeys]
  | created d db sup m out _ hc ih =>
    obtain ⟨h1, h2⟩ := createTable_mirror hc
    unfold Sound at ih ⊢
    rw [h1, h2]
    exact ih
  | loaded sched snap pfx name m hp hl => exact loadFromTable_sound (hP snap hp) hl
  | idFromItem d db m item add r _ ha hr ih => exact IdFromItem_sound ih ha hr

theorem reach_consistent {m : IdMapper} (h : Reach Ascending m) : Consistent m := by
  induction h with
  | fresh pfx name =>
    intro k id hk
    simp [newIdMapper, mapGet] at hk
  | created d db sup m out _ hc ih =>
    obtain ⟨h1, h2⟩ := createTable_mirror hc
    unfold Consistent at ih ⊢
    rw [h1, h2]
    exact ih
  | loaded sched snap pfx name m hp hl => exact loadFromTable_consistent hp hl
  | idFromItem d db m item add r _ ha hr ih => exact IdFromItem_consistent ih ha hr

theorem abcSnapshot_ascending : Ascending abcSnapshot := by
  refine ⟨?_, ?_⟩
  · intro n hn
    simp only [abcSnapshot, MaxAnswer.value.injEq] at hn
    omega
  · intro rs hrs
    simp only [abcSnapshot, RowsAnswer.rows.injEq] at hrs
    subst hrs
    decide

theorem abcMapper_loaded :
    loadFromTable lazySchedule abcSnapshot (newIdMapper "" "t") = LoadResult.loaded abcMapper := by
  decide

theorem abcMapper_reach : Reach Ascending abcMapper :=
  Reach.loaded lazySchedule abcSnapshot "" "t" abcMapper abcSnapshot_ascending abcMapper_loaded

theorem abcTable_assigns : StoreAssigns (tableDriver anyName) abcTable abcMapper (bytes "d") := by
  intro _ _ _
  refine ⟨by decide, ?_⟩
  intro k hk
  have hidx : (insertItem (tableDriver anyName) abcTable abcMapper
      (truncate abcMapper.maxKeySize (bytes "d"))).idx = 4 := by decide
  rw [hidx] at hk
  have := mapGet_mem hk
  revert this
  simp [abcMapper]

/-- Claim C1, amended.  Round trip: in every state reachable from a new or
bulk-loaded mapper (rows delivered in strictly ascending id order, the store
assigning ids that are non-zero and not already assigned to another key), for
every key `k` with `len(k) <= maxKeySize` (in bytes), if `IdFromItem(k, true)`
returns an id other than `INVALID` that does not exceed `len(s2id)` in the state
left by the call, then `ItemFromId(id)` in that state returns `(k, true)`. -/
theorem C1_round_trip {σ : Type} (m : IdMapper) (hm : Reach Ascending m) (d : Driver σ) (db : σ)
    (k : GoString) (r : Ret σ) (hk : k.length ≤ m.maxKeySize) (ha : StoreAssigns d db m k)
    (hr : IdFromItem d db m k true = some r) (hne : r.id ≠ INVALID)
    (hle : r.id ≤ mapLen r.mapper.s2id) :
    ItemFromId r.mapper r.id = some (k, true) := by
  have hR : Reach Ascending r.mapper := Reach.idFromItem d db m k true r hm ha hr
  have hS := reach_sound (fun _ h => h.1) hR
  have hC := reach_consistent hR
  have hkk : truncate m.maxKeySize k = k := truncate_of_le _ _ hk
  have hget : mapGet k r.mapper.s2id = some r.id := by
    rcases IdFromItem_cases hr with h1 | h1 | h1 | h1
    · rw [h1.1, ← hkk]; exact h1.2.2.2
    · exact absurd h1.2.2.2.2.1 hne
    · exact absurd h1.2.2.1 hne
    · rw [h1.2.2.2.2.2, hkk]
      exact mapGet_mapSet_self _ _ _
  have h1 : 1 ≤ r.id := (hS.2.2 _ (mapGet_mem hget)).1
  have h2 := (hC k r.id hget (by omega)).2
  unfold ItemFromId
  rw [if_neg (by omega), h2]

/-- Claim C4, amended.  Forward/reverse consistency: in the state produced by
`newIdMapper` or by a successful `loadFromTable` whose rows the store delivered
in ascending id order, and in every state reached from it by `HasItem`,
`IdFromItem`, `ItemFromId` and `Items` calls (the store assigning ids that are
non-zero and not already assigned to another key), every pair `(k, id)` of
`s2id` with `id != 0` satisfies `id < len(id2s)` and `id2s[id] == k`. -/
theorem C4_forward_reverse_consistency (m : IdMapper) (hm : Reach Ascending m) :
    ∀ k id, mapGet k m.s2id = some id → id ≠ 0 → id < m.id2s.length ∧ m.id2s[id]? = some k :=
  reach_consistent hm

/-- The id boundary under a sound store.  In every state reached while the store
assigns ids that are non-zero and not already assigned to another key (any
delivery order of the bulk load, any schedule), `ItemFromId(0)` returns
`("", false)`, `ItemFromId(id)` returns `("", false)` for every id above all
mapped ids and for every `id >= len(id2s)`, and no call of `ItemFromId` reads
`id2s` out of bounds. -/
theorem itemFromId_boundary (m : IdMapper) (hm : Reach Fits m) :
    ItemFromId m 0 = some ([], false) ∧
    (∀ id, (∀ k v, mapGet k m.s2id = some v → v < id) → ItemFromId m id = some ([], false)) ∧
    (∀ id, m.id2s.length ≤ id → ItemFromId m id = some ([], false)) ∧
    (∀ id, ItemFromId m id ≠ none) := by
  have hS := reach_sound (fun _ h => h) hm
  refine ⟨by simp [ItemFromId], ?_, ?_, ?_⟩
  · intro id hid
    unfold ItemFromId
    by_cases he : m.s2id = []
    · rw [if_pos]
      rw [he]
      simp only [mapLen, List.length_nil]
      omega
    · rw [if_pos (Or.inl (sound_mapLen_lt_of_bound hS id hid he))]
  · intro id hid
    unfold ItemFromId
    by_cases he : m.s2id = []
    · rw [if_pos]
      rw [he]
      simp only [mapLen, List.length_nil]
      omega
    · have := sound_mapLen_lt hS he
      rw [if_pos (Or.inl (by omega))]
  · intro id
    unfold ItemFromId
    split
    · simp
    · rename_i hc
      have he : m.s2id ≠ [] := by
        intro he
        apply hc
        rw [he]
        simp only [mapLen, List.length_nil]
        omega
      have := sound_mapLen_lt hS he
      have hlt : id < m.id2s.length := by omega
      rw [List.getElem?_eq_getElem hlt]
      simp

/-! ### A bulk load of rows delivered out of id order -/

theorem rowName_ne (j : Nat) : rowName j ≠ [] := by
  have h : bytes "k" = [107] := by decide
  simp [rowName, h]

theorem readerLoop_append (sched : Nat → Nat) (xs ys : List (Nat × GoString)) (pos : Nat)
    (st : LoadState) :
    readerLoop sched pos (xs ++ ys) st =
      (readerLoop sched pos xs st).bind (readerLoop sched (pos + xs.length) ys) := by
  induction xs generalizing pos st with
  | nil => simp [readerLoop]
  | cons x xs ih =>
    rw [List.cons_append, readerLoop, readerLoop]
    cases readerStep (sched pos) x st with
    | none => rfl
    | some st1 =>
      simp only
      rw [ih, List.length_cons, Nat.add_assoc, Nat.add_comm xs.length 1]

theorem filling_step {L j n : Nat} {st : LoadState} (h : Filling L j st) (hj : j + 1 < 100000)
    (hL : j + 2 < L) :
    ∃ st1, readerStep n (j + 2, rowName j) st = some st1 ∧ Filling L (j + 1) st1 := by
  obtain ⟨hleft, hc, ht, hci, hs, hl, h1, hrest⟩ := h
  have hidle : mapperRun n st = st := mapperRun_idle n st (by omega)
  rw [readerStep_of_not_left n _ st hleft, hidle]
  simp only
  rw [if_pos (by omega), if_neg (by omega)]
  refine ⟨_, rfl, ?_⟩
  refine ⟨hleft, by simp only; omega, ht, hci, hs, by simpa using hl, ?_, ?_⟩
  · simp only
    rw [List.getElem?_set_ne (by omega)]
    exact h1
  · intro c hc2 hcj
    simp only
    by_cases hcc : c = j + 2
    · subst hcc
      refine ⟨rowName j, ?_, rowName_ne j⟩
      rw [List.getElem?_set_self (by omega)]
    · rw [List.getElem?_set_ne (by omega)]
      exact hrest c hc2 (by omega)

theorem filling_loop (sched : Nat → Nat) {L : Nat} (n : Nat) {j pos : Nat} {st : LoadState}
    (h : Filling L j st) (hj : j + n < 100000) (hL : j + n + 1 < L) :
    ∃ st1, readerLoop sched pos ((List.range' j n).map (fun i => (i + 2, rowName i))) st = some st1 ∧
      Filling L (j + n) st1 := by
  induction n generalizing j pos st with
  | zero => exact ⟨st, by simp [readerLoop], h⟩
  | succ n ih =>
    obtain ⟨st1, hs1, hf1⟩ := filling_step (n := sched pos) h (by omega) (by omega)
    obtain ⟨st2, hs2, hf2⟩ := @ih (j + 1) (pos + 1) st1 hf1 (by omega) (by omega)
    refine ⟨st2, ?_, ?_⟩
    · simp only [List.range', List.map_cons, readerLoop, hs1]
      exact hs2
    · have : j + (n + 1) = j + 1 + n := by omega
      rw [this]
      exact hf2

theorem filling_send {L j n : Nat} {st : LoadState} (h : Filling L j st) (hj : j + 1 = 100000)
    (hL : j + 2 < L) :
    ∃ st1, readerStep n (j + 2, rowName j) st = some st1 ∧ Pending L (j + 2) st1 := by
  obtain ⟨hleft, hc, ht, hci, hs, hl, h1, hrest⟩ := h
  have hidle : mapperRun n st = st := mapperRun_idle n st (by omega)
  rw [readerStep_of_not_left n _ st hleft, hidle]
  simp only
  rw [if_pos (by omega), if_pos (by omega), send_of_not_left]
  rotate_left
  · exact hleft
  · omega
  unfold mapperDrain
  simp only
  rw [mapperRun_idle _ _ (by simp only; omega)]
  refine ⟨_, rfl, hleft, rfl, rfl, hci, hs, by simpa using hl, ?_, ?_⟩
  · simp only
    rw [List.getElem?_set_ne (by omega)]
    exact h1
  · intro c hc2 hcj
    simp only
    by_cases hcc : c = j + 2
    · subst hcc
      refine ⟨rowName j, ?_, rowName_ne j⟩
      rw [List.getElem?_set_self (by omega)]
    · rw [List.getElem?_set_ne (by omega)]
      exact hrest c hc2 (by omega)

theorem pending_overtaken {L w : Nat} {st : LoadState} (h : Pending L w st) (hw : 1 ≤ w)
    (hL : w < L) :
    ∃ st1, readerStep 1 (1, bytes "a") st = some st1 ∧ Overtaken L w st1 := by
  obtain ⟨hleft, hc, ht, hci, hs, hl, h1, hrest⟩ := h
  have hname : st.id2s.getD 1 [] = [] := by
    rw [List.getD_eq_getElem?_getD, h1]
    rfl
  have hrun : mapperRun 1 st =
      { st with s2id := [([], 1)], cidx := 2 } := by
    simp only [mapperRun]
    unfold mapperStep
    rw [if_pos (by omega), hci, hname, hs]
    rfl
  rw [readerStep_of_not_left 1 _ st hleft, hrun]
  simp only
  rw [if_pos (by omega), if_neg (by omega)]
  refine ⟨_, rfl, hleft, rfl, ht, rfl, by simp [mapGet], by simpa using hl, ?_, ?_⟩
  · simp only
    rw [List.getElem?_set_self (by omega)]
  · intro c hc2 hcw
    simp only
    rw [List.getElem?_set_ne (by omega)]
    exact hrest c hc2 hcw

theorem mapperRun_keeps (n : Nat) {st : LoadState} {v : Nat}
    (hne : ∀ c, st.cidx ≤ c → c ≤ st.target → ∃ s, st.id2s[c]? = some s ∧ s ≠ [])
    (hg : mapGet [] st.s2id = some v) :
    mapGet [] (mapperRun n st).s2id = some v ∧ (mapperRun n st).id2s = st.id2s ∧
      st.cidx ≤ (mapperRun n st).cidx := by
  induction n generalizing st with
  | zero => exact ⟨hg, rfl, le_refl _⟩
  | succ n ih =>
    rw [mapperRun]
    by_cases hle : st.cidx ≤ st.target
    · obtain ⟨s, hs, hsne⟩ := hne st.cidx (le_refl _) hle
      have hname : st.id2s.getD st.cidx [] = s := by
        rw [List.getD_eq_getElem?_getD, hs]
        rfl
      have hstep : (mapperStep st).id2s = st.id2s ∧ (mapperStep st).cidx = st.cidx + 1 ∧
          (mapperStep st).target = st.target ∧
          mapGet [] (mapperStep st).s2id = some v := by
        unfold mapperStep
        rw [if_pos hle]
        refine ⟨rfl, rfl, rfl, ?_⟩
        simp only
        rw [hname, mapGet_mapSet_ne _ _ _ _ (Ne.symm hsne)]
        exact hg
      obtain ⟨e1, e2, e3, e4⟩ := hstep
      have := @ih (mapperStep st)
        (by
          intro c hc1 hc2
          rw [e1]
          exact hne c (by omega) (by omega))
        e4
      rw [e1, e2] at this
      exact ⟨this.1, this.2.1, by omega⟩
    · have : mapperStep st = st := by
        unfold mapperStep
        rw [if_neg hle]
      rw [this]
      exact ih hne hg

theorem bigRows_eq :
    bigRows = (List.range' 0 99999).map (fun i => (i + 2, rowName i)) ++
      ([(99999 + 2, rowName 99999)] ++ [(1, bytes "a")]) := by
  unfold bigRows
  rw [show (100000 : Nat) = 99999 + 1 from rfl, List.range_succ, List.range_eq_range',
    List.map_append, List.append_assoc]
  rfl

theorem loadInit_filling (L late : Nat) (hL : 1 < L) : Filling L 0 (loadInit L late) := by
  refine ⟨rfl, rfl, rfl, rfl, rfl, List.length_replicate _ _, ?_, ?_⟩
  · show (List.replicate L [])[1]? = some []
    rw [List.getElem?_replicate, if_pos hL]
  · intro c h1 h2
    omega

theorem outOfOrder_load (N L : Nat) (hN : N + 1 = 100000) (hL : L = N + 3) :
    ∃ st, pipeline stepSchedule
        ((List.range' 0 N).map (fun i => (i + 2, rowName i)) ++
          ([(N + 2, rowName N)] ++ [(1, bytes "a")])) L = some st ∧
      mapGet [] st.s2id = some 1 ∧ st.id2s[1]? = some (bytes "a") := by
  obtain ⟨st1, hs1, hf1⟩ := @filling_loop (fun _ => 1) L N 0 0 (loadInit L 0)
    (loadInit_filling L 0 (by omega)) (by omega) (by omega)
  rw [Nat.zero_add] at hf1
  obtain ⟨st2, hs2, hf2⟩ := filling_send (n := 1) hf1 hN (by omega)
  obtain ⟨st3, hs3, hf3⟩ := pending_overtaken hf2 (by omega) (by omega)
  obtain ⟨hleft, hidx, ht, hci, hg, hl, h1, hrest⟩ := hf3
  have hloop : readerLoop (fun _ => 1) 0
      ((List.range' 0 N).map (fun i => (i + 2, rowName i)) ++
        ([(N + 2, rowName N)] ++ [(1, bytes "a")])) (loadInit L 0) = some st3 := by
    rw [readerLoop_append, hs1]
    simp only [Option.some_bind, List.singleton_append, readerLoop]
    rw [hs2]
    simp only
    rw [hs3]
  obtain ⟨d1, d2, d3⟩ := @mapperRun_keeps (st3.target + 1 - st3.cidx) st3 1
    (by
      intro c hc1 hc2
      exact hrest c (by omega) (by omega))
    hg
  obtain ⟨e1, e2, _⟩ := @mapperRun_keeps
    ((({ mapperDrain st3 with target := st3.idx } : LoadState).target + 1) -
      ({ mapperDrain st3 with target := st3.idx } : LoadState).cidx)
    { mapperDrain st3 with target := st3.idx } 1
    (by
      intro c hc1 hc2
      simp only [mapperDrain] at hc1 hc2
      omega)
    d1
  have hleft2 : (mapperDrain st3).left = false := by
    unfold mapperDrain
    rw [mapperRun_left]
    exact hleft
  refine ⟨{ mapperDrain { mapperDrain st3 with target := st3.idx } with left := true },
    ?_, e1, ?_⟩
  · unfold pipeline
    show (match readerLoop (fun _ => 1) 0 _ (loadInit L 0) with
      | none => none
      | some st => some (send 0 (if st.idx ≠ 0 then send st.idx st else st))) = _
    rw [hloop]
    simp only
    rw [if_pos (by omega), send_of_not_left _ _ hleft (by omega), send_zero_of_not_left]
    exact hleft2
  · show (mapperDrain { mapperDrain st3 with target := st3.idx }).id2s[1]? = some (bytes "a")
    unfold mapperDrain at e2 ⊢
    rw [e2]
    show (mapperRun (st3.target + 1 - st3.cidx) st3).id2s[1]? = some (bytes "a")
    rw [d2]
    exact h1

theorem bigRows_load :
    ∃ st, pipeline stepSchedule bigRows 100002 = some st ∧
      mapGet [] st.s2id = some 1 ∧ st.id2s[1]? = some (bytes "a") := by
  rw [bigRows_eq]
  exact outOfOrder_load 99999 100002 rfl rfl

theorem loadFromTable_of_pipeline {sched : Schedule} {snap : Snapshot} {m : IdMapper}
    {size nrows : Nat} {rs : List (Nat × GoString)} {st : LoadState}
    (h1 : snap.size = SizeAnswer.length size) (h2 : snap.maxIdx = MaxAnswer.value nrows)
    (h3 : snap.scan = RowsAnswer.rows rs) (h4 : pipeline sched rs (nrows + 1) = some st) :
    loadFromTable sched snap m =
      LoadResult.loaded { m with maxKeySize := size, s2id := st.s2id, id2s := st.id2s } := by
  unfold loadFromTable
  rw [h1]
  simp only
  rw [h2]
  simp only
  rw [h3]
  simp only
  rw [h4]

/-- Counterexample to claim C4 as stated.  The table `bigRows` has 100001 rows
with distinct ids and distinct non-empty names, but the row with id 1 is
delivered last.  The producer publishes the watermark 100001 after 100000 rows;
when the consumer handles slot 1 before the producer writes the last row,
`loadFromTable` succeeds with `s2id[""] == 1` although `id2s[1] == "a"`. -/
theorem C4_consistency_fails_out_of_order :
    ∃ m, loadFromTable stepSchedule bigSnapshot (newIdMapper "" "t") = LoadResult.loaded m ∧
      mapGet [] m.s2id = some 1 ∧ m.id2s[1]? = some (bytes "a") := by
  obtain ⟨st, hp, h1, h2⟩ := bigRows_load
  exact ⟨_, @loadFromTable_of_pipeline stepSchedule bigSnapshot (newIdMapper "" "t") 500 100001
    bigRows st rfl rfl rfl hp, h1, h2⟩

/-! ### Concrete runs -/

theorem createdMapper_reach (P : Snapshot → Prop) : Reach P createdMapper :=
  Reach.created (tableDriver bmpOnly) emptyTable true (newIdMapper "" "t")
    { db := emptyTable, supportUCS2 := true, mapper := createdMapper, err := none,
      calls := [Call.createTable "idmap.t" "ucs2" 500] }
    (Reach.fresh "" "t") (by decide)

theorem sharedTable_assigns : StoreAssigns (tableDriver bmpOnly) sharedTable createdMapper (bytes "k") := by
  intro _ _ _
  refine ⟨by decide, ?_⟩
  intro k hk
  simp [createdMapper, mapGet] at hk

theorem wideKey_assigns : StoreAssigns (tableDriver bmpOnly) emptyTable createdMapper wideKey := by
  intro _ _ h
  exact absurd (by decide) h

theorem baSnapshot_fits : Fits baSnapshot := by
  intro n hn
  simp only [baSnapshot, MaxAnswer.value.injEq] at hn
  omega

theorem baMapper_reach : Reach Fits baMapper :=
  Reach.loaded lazySchedule baSnapshot "" "t" baMapper baSnapshot_fits (by decide)

theorem abcdRet_run :
    IdFromItem (tableDriver anyName) abcTable abcMapper (bytes "d") true = some abcdRet := by
  decide

/-! ### The claims -/

theorem mapGet_some_mapLen {k : GoString} {v : Nat} {m : GoMap} (h : mapGet k m = some v) :
    1 ≤ mapLen m := by
  cases m with
  | nil => simp [mapGet] at h
  | cons hd tl => simp [mapLen]

theorem bigRows_round_trip :
    ∃ m, loadFromTable stepSchedule bigSnapshot (newIdMapper "" "t") = LoadResult.loaded m ∧
      IdFromItem (tableDriver anyName) emptyTable m [] true =
        some { id := 1, mapper := m, db := emptyTable, calls := [] } ∧
      ItemFromId m 1 = some (bytes "a", true) := by
  obtain ⟨st, hp, h1, h2⟩ := bigRows_load
  refine ⟨_, @loadFromTable_of_pipeline stepSchedule bigSnapshot (newIdMapper "" "t") 500 100001
    bigRows st rfl rfl rfl hp, ?_, ?_⟩
  · simp [IdFromItem, truncate, h1]
  · have := mapGet_some_mapLen h1
    unfold ItemFromId
    simp only
    rw [if_neg (by omega), h2]

/-- Counterexample to claim C1 as stated, one run for each condition of the
amended claim.  (1) A new mapper on a fresh table whose column holds the Basic
Multilingual Plane only: `IdFromItem` of a key beyond it returns `INVALID`, and
`ItemFromId(INVALID)` is `("", false)`.  (2) A new mapper on a table in which
another process has interned one name: `IdFromItem("k", true)` returns the id 2
the store assigns, `len(s2id)` is 1, and `ItemFromId(2)` is `("", false)`.
(3) A new mapper on a fresh table whose unique key compares names without
regard to case: after `a` and `A` have been interned the store has handed out
id 1 twice, `IdFromItem("a", true)` returns 1 and `ItemFromId(1)` is
`("A", true)`.  (4) A mapper loaded from 100001 rows of which the one with id 1
is delivered last: `IdFromItem("", true)` returns 1 and `ItemFromId(1)` is
`("a", true)`.  (5) A new mapper on a table that holds the name `k` under id 0:
`IdFromItem("k", true)` returns 0 and `ItemFromId(0)` is `("", false)`.  All keys
are within `maxKeySize`. -/
theorem C1_round_trip_fails :
    (Reach Ascending createdMapper ∧ wideKey.length ≤ createdMapper.maxKeySize ∧
      StoreAssigns (tableDriver bmpOnly) emptyTable createdMapper wideKey ∧
      IdFromItem (tableDriver bmpOnly) emptyTable createdMapper wideKey true =
        some rejectedRet ∧
      ItemFromId rejectedRet.mapper rejectedRet.id = some ([], false)) ∧
    ((bytes "k").length ≤ createdMapper.maxKeySize ∧
      StoreAssigns (tableDriver bmpOnly) sharedTable createdMapper (bytes "k") ∧
      IdFromItem (tableDriver bmpOnly) sharedTable createdMapper (bytes "k") true =
        some sharedRet ∧
      ItemFromId sharedRet.mapper sharedRet.id = some ([], false)) ∧
    ((internAll caseBlindDriver [bytes "a", bytes "A"] emptyTable createdMapper).bind
      (fun s => (IdFromItem caseBlindDriver s.1 s.2 (bytes "a") true).map
        (fun r => (r.id, ItemFromId r.mapper r.id))) = some (1, some (bytes "A", true))) ∧
    (∃ m, loadFromTable stepSchedule bigSnapshot (newIdMapper "" "t") = LoadResult.loaded m ∧
      IdFromItem (tableDriver anyName) emptyTable m [] true =
        some { id := 1, mapper := m, db := emptyTable, calls := [] } ∧
      ItemFromId m 1 = some (bytes "a", true)) ∧
    ((bytes "k").length ≤ createdMapper.maxKeySize ∧
      IdFromItem (tableDriver anyName) zeroTable createdMapper (bytes "k") true = some zeroRet ∧
      ItemFromId zeroRet.mapper zeroRet.id = some ([], false)) :=
  ⟨⟨createdMapper_reach Ascending, by decide, wideKey_assigns, by decide, by decide⟩,
    ⟨by decide, sharedTable_assigns, by decide, by decide⟩, by decide, bigRows_round_trip,
    ⟨by decide, by decide, by decide⟩⟩

/-- Witness of `C1_round_trip`: after the load of `(1,"a"), (2,"b"), (3,"c")` the
key `d` is interned under id 4 and `ItemFromId(4)` returns `("d", true)`. -/
theorem C1_round_trip_witness :
    Reach Ascending abcMapper ∧ (bytes "d").length ≤ abcMapper.maxKeySize ∧
      IdFromItem (tableDriver anyName) abcTable abcMapper (bytes "d") true = some abcdRet ∧
      ItemFromId abcdRet.mapper abcdRet.id = some (bytes "d", true) :=
  ⟨abcMapper_reach, by decide, abcdRet_run,
    C1_round_trip abcMapper abcMapper_reach (tableDriver anyName) abcTable (bytes "d") abcdRet
      (by decide) abcTable_assigns abcdRet_run (by decide) (by decide)⟩

/-- Claim C2, amended.  Idempotence: if `IdFromItem(k, true)` returns an id other
than `INVALID`, or the (truncated) key was already in `s2id`, then a second
`IdFromItem(k, true)` returns the same id, leaves mapper and store as they are,
and sends no statement to the store. -/
theorem C2_idempotence {σ : Type} (d : Driver σ) (db : σ) (m : IdMapper) (k : GoString) (r : Ret σ)
    (h1 : IdFromItem d db m k true = some r)
    (h2 : r.id ≠ INVALID ∨ (mapGet (truncate m.maxKeySize k) m.s2id).isSome) :
    IdFromItem d r.db r.mapper k true =
      some { id := r.id, mapper := r.mapper, db := r.db, calls := [] } := by
  rcases IdFromItem_cases h1 with h | h | h | h
  · obtain ⟨hm, hdb, _, hg⟩ := h
    rw [hm, hdb]
    simp [IdFromItem, hg]
  · simp at h
  · obtain ⟨_, _, hid, hg, _⟩ := h
    rw [hg] at h2
    simp [hid] at h2
  · obtain ⟨_, _, _, _, _, hm⟩ := h
    rw [hm]
    simp [IdFromItem, mapGet_mapSet_self]

/-- Counterexample to claim C2 as stated.  The store rejects the key with error
1366: the first `IdFromItem(k, true)` returns `INVALID` and records nothing, and
the second call, started in the state the first one left, sends the insert to
the store again. -/
theorem C2_idempotence_fails :
    IdFromItem (tableDriver bmpOnly) emptyTable createdMapper wideKey true = some rejectedRet ∧
    IdFromItem (tableDriver bmpOnly) rejectedRet.db rejectedRet.mapper wideKey true =
      some rejectedRet ∧
    rejectedRet.calls = [Call.insert "idmap.t" wideKey] :=
  ⟨by decide, by decide, rfl⟩

/-- Witness of `C2_idempotence`: after `d` has been interned under id 4, the
second call returns 4 without a store call. -/
theorem C2_idempotence_witness :
    IdFromItem (tableDriver anyName) abcTable abcMapper (bytes "d") true = some abcdRet ∧
    abcdRet.id ≠ INVALID ∧
    IdFromItem (tableDriver anyName) abcdRet.db abcdRet.mapper (bytes "d") true =
      some { id := 4, mapper := abcdRet.mapper, db := abcdRet.db, calls := [] } :=
  ⟨abcdRet_run, by decide,
    C2_idempotence (tableDriver anyName) abcTable abcMapper (bytes "d") abcdRet abcdRet_run
      (Or.inl (by decide))⟩

/-- Claim C3 at its failing input.  The table holds the rows `(1,"a"), (4,"b")`
(distinct ids, distinct non-empty names, ascending order).  `loadFromTable`
succeeds, `IdFromItem("b", false)` is 4 and `Items()` holds exactly `a` and `b`,
but `ItemFromId(4)` returns `("", false)`: it compares the id with `len(s2id)`,
which is 3, while `id2s[4]` is `b`. -/
theorem C3_bulk_load_gap :
    loadFromTable lazySchedule gapSnapshot (newIdMapper "" "t") = LoadResult.loaded gapMapper ∧
    IdFromItem (tableDriver anyName) emptyTable gapMapper (bytes "b") false =
      some { id := 4, mapper := gapMapper, db := emptyTable, calls := [] } ∧
    Items gapMapper = [bytes "a", bytes "b"] ∧
    gapMapper.id2s[4]? = some (bytes "b") ∧
    ItemFromId gapMapper 4 = some ([], false) :=
  ⟨by decide, by decide, by decide, by decide, by decide⟩

/-- The three-row scenario of the bulk load: the rows `(1,"a"), (2,"b"), (3,"c")`
give `Items() = {a,b,c}`, `IdFromItem("b", false) == 2` and
`ItemFromId(3) == ("c", true)`. -/
theorem abc_scenario :
    loadFromTable lazySchedule abcSnapshot (newIdMapper "" "t") = LoadResult.loaded abcMapper ∧
    Items abcMapper = [bytes "a", bytes "b", bytes "c"] ∧
    IdFromItem (tableDriver anyName) abcTable abcMapper (bytes "b") false =
      some { id := 2, mapper := abcMapper, db := abcTable, calls := [] } ∧
    ItemFromId abcMapper 3 = some (bytes "c", true) :=
  ⟨by decide, by decide, by decide, by decide⟩

/-- Witness of `C4_forward_reverse_consistency` at the mapper loaded from
`(1,"a"), (2,"b"), (3,"c")` after `d` has been interned. -/
theorem C4_forward_reverse_consistency_witness :
    Reach Ascending abcdRet.mapper ∧
    ∀ k id, mapGet k abcdRet.mapper.s2id = some id → id ≠ 0 →
      id < abcdRet.mapper.id2s.length ∧ abcdRet.mapper.id2s[id]? = some k :=
  ⟨Reach.idFromItem (tableDriver anyName) abcTable abcMapper (bytes "d") true abcdRet abcMapper_reach
      abcTable_assigns abcdRet_run,
    C4_forward_reverse_consistency abcdRet.mapper
      (Reach.idFromItem (tableDriver anyName) abcTable abcMapper (bytes "d") true abcdRet abcMapper_reach
        abcTable_assigns abcdRet_run)⟩

/-- The id boundary at a mapper loaded from rows delivered out of id order. -/
theorem baMapper_boundary :
    ItemFromId baMapper 0 = some ([], false) ∧ ItemFromId baMapper 3 = some ([], false) ∧
    ItemFromId baMapper 2 ≠ none :=
  ⟨(itemFromId_boundary baMapper baMapper_reach).1,
    (itemFromId_boundary baMapper baMapper_reach).2.2.1 3 (by decide),
    (itemFromId_boundary baMapper baMapper_reach).2.2.2 2⟩

set_option maxRecDepth 100000 in
theorem caseVariants_run :
    (internAll caseBlindDriver caseVariants emptyTable createdMapper).map
      (fun s => (mapLen s.2.s2id, s.2.id2s.length, ItemFromId s.2 100)) =
      some (100, 100, none) := by
  decide

/-- Claim C5 at its failing input.  A new mapper on a fresh table whose unique
key compares names without regard to case.  (1) After `IdFromItem("a", true)`
and `IdFromItem("A", true)` both keys are mapped to id 1, the only mapped id,
and `ItemFromId(2)` returns `("", true)`: the guard compares 2 with `len(s2id)`,
which is 2.  (2) After the 100 case variants of `abcdefg` have been interned,
`len(s2id)` and `len(id2s)` are both 100, the guard lets id 100 through, and
`id2s[100]` is read out of range: `ItemFromId(100)` panics. -/
theorem C5_boundary_fails_case_variants :
    (internAll caseBlindDriver [bytes "a", bytes "A"] emptyTable createdMapper).map
      (fun s => (s.2.s2id, ItemFromId s.2 2)) =
      some ([(bytes "a", 1), (bytes "A", 1)], some ([], true)) ∧
    (internAll caseBlindDriver caseVariants emptyTable createdMapper).map
      (fun s => (mapLen s.2.s2id, s.2.id2s.length, ItemFromId s.2 100)) =
      some (100, 100, none) :=
  ⟨by decide, caseVariants_run⟩

/-! ### The insert protocol against the backing table -/

theorem fetch_append_new (t : Table) (k : GoString) (id : Nat) (h : t.fetch k = none) :
    Table.fetch { rows := t.rows ++ [(id, k)], autoInc := t.autoInc + 1 } k = some id := by
  unfold Table.fetch at h ⊢
  simp only [Option.map_eq_none'] at h
  simp only [List.find?_append, h, Option.none_or]
  simp [List.find?]

/-- Claim C6.  Race convergence of the insert protocol: for every table, every
key `k` not stored in it that the column accepts, and two callers (mappers on
the same table) that each run `insertItem(k)`, the first insert succeeds with
the newly assigned id, the second is answered with error 1062 and fetches the id
by name; both calls return that id with no error, and it is the id stored for
`k`. -/
theorem C6_race_convergence (enc : GoString → Bool) (t : Table) (m1 m2 : IdMapper) (k : GoString)
    (hk : t.fetch k = none) (he : enc k = true) (ha : t.autoInc < 2 ^ 32) :
    (insertItem (tableDriver enc) t m1 k).err = none ∧
    (insertItem (tableDriver enc) t m1 k).idx = t.autoInc ∧
    (insertItem (tableDriver enc) t m1 k).calls = [Call.insert m1.tableName k] ∧
    (insertItem (tableDriver enc) (insertItem (tableDriver enc) t m1 k).db m2 k).err = none ∧
    (insertItem (tableDriver enc) (insertItem (tableDriver enc) t m1 k).db m2 k).idx =
      (insertItem (tableDriver enc) t m1 k).idx ∧
    (insertItem (tableDriver enc) (insertItem (tableDriver enc) t m1 k).db m2 k).calls =
      [Call.insert m2.tableName k, Call.selectIdx m2.tableName k] ∧
    (insertItem (tableDriver enc) (insertItem (tableDriver enc) t m1 k).db m2 k).db.fetch k =
      some (insertItem (tableDriver enc) t m1 k).idx := by
  have ha2 : t.autoInc < 4294967296 := by
    have : (2 : Nat) ^ 32 = 4294967296 := by norm_num
    omega
  have hfirst : insertItem (tableDriver enc) t m1 k =
      { db := { rows := t.rows ++ [(t.autoInc, k)], autoInc := t.autoInc + 1 },
        calls := [Call.insert m1.tableName k], idx := t.autoInc, err := none } := by
    simp [insertItem, tableDriver, hk, he, Nat.mod_eq_of_lt ha2]
  have hf := fetch_append_new t k t.autoInc hk
  have hsecond : insertItem (tableDriver enc)
      { rows := t.rows ++ [(t.autoInc, k)], autoInc := t.autoInc + 1 } m2 k =
      { db := { rows := t.rows ++ [(t.autoInc, k)], autoInc := t.autoInc + 1 },
        calls := [Call.insert m2.tableName k, Call.selectIdx m2.tableName k],
        idx := t.autoInc, err := none } := by
    simp [insertItem, tableDriver, hf, ha2]
  rw [hfirst]
  simp only
  rw [hsecond]
  simp only
  exact ⟨trivial, trivial, trivial, trivial, trivial, trivial, hf⟩

/-- Witness of `C6_race_convergence`: two callers intern `k` in the new table;
both get id 1. -/
theorem C6_race_convergence_witness :
    emptyTable.fetch (bytes "k") = none ∧ anyName (bytes "k") = true ∧ emptyTable.autoInc < 2 ^ 32 ∧
    (insertItem (tableDriver anyName) emptyTable createdMapper (bytes "k")).idx = 1 ∧
    (insertItem (tableDriver anyName)
      (insertItem (tableDriver anyName) emptyTable createdMapper (bytes "k")).db abcMapper (bytes "k")).idx = 1 := by
  have h := C6_race_convergence anyName emptyTable createdMapper abcMapper (bytes "k") (by decide)
    (by decide) (by decide)
  exact ⟨by decide, by decide, by decide, h.2.1, h.2.2.2.2.1.trans h.2.1⟩

/-! ### Schema negotiation -/

/-- Claim C7 at its failing input.  The creation statement with `ucs2` fails with
MySQL error 1040, which is not error 1115, and the store then accepts statements
again:
`createTable` goes on to the next character set, sends the `utf8` creation
statement, and returns nil with `maxKeySize == 333`; the error of the first
statement is not returned. -/
theorem C7_other_error_falls_through :
    createTable dropFirst 0 true (newIdMapper "" "t") =
      some { db := 2, supportUCS2 := true,
             mapper := { tableName := "idmap.t", s2id := [], id2s := [], maxKeySize := 333 },
             err := none,
             calls := [Call.createTable "idmap.t" "ucs2" 500,
                       Call.createTable "idmap.t" "utf8" 333] } := by
  decide

/-- Claim C8.  The encoding fallback is remembered process-wide.  (1) When the
`ucs2` creation statement is answered with error 1115, `createTable` clears
`supportUCS2`, sends the `utf8` statement, returns its outcome and leaves
`maxKeySize == 333`.  (2) Once `supportUCS2` is cleared, `createTable` on any
mapper sends the `utf8` statement only, leaves `maxKeySize == 333`, and
`supportUCS2` stays cleared.  (3) When the `ucs2` statement succeeds,
`createTable` returns nil with `maxKeySize == 500`. -/
theorem C8_encoding_fallback {σ : Type} (d : Driver σ) :
    (∀ (db db1 db2 : σ) (m : IdMapper) (rep : Reply),
      d db (Call.createTable m.tableName UCS2 500) = (db1, Reply.error (GoError.mysql 1115)) →
      d db1 (Call.createTable m.tableName "utf8" 333) = (db2, rep) →
      createTable d db true m =
        some { db := db2, supportUCS2 := false, mapper := { m with maxKeySize := 333 },
               err := replyErr rep,
               calls := [Call.createTable m.tableName UCS2 500,
                         Call.createTable m.tableName "utf8" 333] }) ∧
    (∀ (db db2 : σ) (m : IdMapper) (rep : Reply),
      d db (Call.createTable m.tableName "utf8" 333) = (db2, rep) →
      createTable d db false m =
        some { db := db2, supportUCS2 := false, mapper := { m with maxKeySize := 333 },
               err := replyErr rep, calls := [Call.createTable m.tableName "utf8" 333] }) ∧
    (∀ (db db1 : σ) (m : IdMapper) (v : Nat),
      d db (Call.createTable m.tableName UCS2 500) = (db1, Reply.ok v) →
      createTable d db true m =
        some { db := db1, supportUCS2 := true, mapper := { m with maxKeySize := 500 },
               err := none, calls := [Call.createTable m.tableName UCS2 500] }) := by
  have hne : ("utf8" : String) ≠ UCS2 := by decide
  refine ⟨?_, ?_, ?_⟩
  · intro db db1 db2 m rep h1 h2
    cases rep with
    | ok v => simp [createTable, createTableLoop, createExec, h1, h2, hne, replyErr]
    | error e =>
      by_cases he : e = GoError.mysql 1115
      · simp [createTable, createTableLoop, createExec, h1, h2, hne, replyErr, he]
      · simp [createTable, createTableLoop, createExec, h1, h2, hne, replyErr, he]
  · intro db db2 m rep h2
    cases rep with
    | ok v => simp [createTable, createTableLoop, createExec, h2, hne, replyErr]
    | error e =>
      by_cases he : e = GoError.mysql 1115
      · simp [createTable, createTableLoop, createExec, h2, hne, replyErr, he]
      · simp [createTable, createTableLoop, createExec, h2, hne, replyErr, he]
  · intro db db1 m v h1
    simp [createTable, createTableLoop, createExec, h1]

/-- The fall-through of `createTable` in general: for every store, when the `ucs2`
creation statement fails with any error other than error 1115, `createTable`
sends the `utf8` statement as well and returns the outcome of that one. -/
theorem createTable_other_error {σ : Type} (d : Driver σ) (db db1 db2 : σ) (m : IdMapper)
    (e : GoError) (rep : Reply) (he : e ≠ GoError.mysql 1115)
    (h1 : d db (Call.createTable m.tableName UCS2 500) = (db1, Reply.error e))
    (h2 : d db1 (Call.createTable m.tableName "utf8" 333) = (db2, rep)) :
    createTable d db true m =
      some { db := db2, supportUCS2 := true, mapper := { m with maxKeySize := 333 },
             err := replyErr rep,
             calls := [Call.createTable m.tableName UCS2 500,
                       Call.createTable m.tableName "utf8" 333] } := by
  have hne : ("utf8" : String) ≠ UCS2 := by decide
  cases rep with
  | ok v => simp [createTable, createTableLoop, createExec, h1, h2, hne, replyErr, he]
  | error e2 =>
    by_cases he2 : e2 = GoError.mysql 1115
    · simp [createTable, createTableLoop, createExec, h1, h2, hne, replyErr, he, he2]
    · simp [createTable, createTableLoop, createExec, h1, h2, hne, replyErr, he, he2]

/-- Witness of `C8_encoding_fallback` on a store without `ucs2`: the first
`createTable` sends both statements and ends with `maxKeySize == 333`; a later
`createTable` on another mapper sends the `utf8` statement only. -/
theorem C8_encoding_fallback_witness :
    createTable noUcs2 0 true (newIdMapper "" "t") =
      some { db := 2, supportUCS2 := false,
             mapper := { newIdMapper "" "t" with maxKeySize := 333 }, err := none,
             calls := [Call.createTable "idmap.t" "ucs2" 500,
                       Call.createTable "idmap.t" "utf8" 333] } ∧
    createTable noUcs2 2 false (newIdMapper "" "u") =
      some { db := 3, supportUCS2 := false,
             mapper := { newIdMapper "" "u" with maxKeySize := 333 }, err := none,
             calls := [Call.createTable "idmap.u" "utf8" 333] } :=
  ⟨(C8_encoding_fallback noUcs2).1 0 1 2 (newIdMapper "" "t") (Reply.ok 0) (by decide) (by decide),
    (C8_encoding_fallback noUcs2).2.1 2 3 (newIdMapper "" "u") (Reply.ok 0) (by decide)⟩

/-- Claim C9.  No-create path: when the truncation of `k` to `maxKeySize` is not
a key of `s2id`, `IdFromItem(k, false)` returns `INVALID`, sends no statement to
the store and leaves mapper and store as they are; when it is a key,
`IdFromItem(k, false)` returns the id that `HasItem(k)` reports. -/
theorem C9_no_create_path {σ : Type} (d : Driver σ) (db : σ) (m : IdMapper) (k : GoString) :
    (mapGet (truncate m.maxKeySize k) m.s2id = none →
      IdFromItem d db m k false = some { id := INVALID, mapper := m, db := db, calls := [] }) ∧
    (∀ id, mapGet (truncate m.maxKeySize k) m.s2id = some id →
      IdFromItem d db m k false = some { id := id, mapper := m, db := db, calls := [] } ∧
      HasItem m k = (id, true)) := by
  constructor
  · intro h
    simp [IdFromItem, h]
  · intro id h
    simp [IdFromItem, HasItem, h]

/-- Witness of `C9_no_create_path` on the mapper loaded from
`(1,"a"), (2,"b"), (3,"c")`: `zz` is absent, `b` has id 2. -/
theorem C9_no_create_path_witness :
    IdFromItem (tableDriver anyName) abcTable abcMapper (bytes "zz") false =
      some { id := INVALID, mapper := abcMapper, db := abcTable, calls := [] } ∧
    IdFromItem (tableDriver anyName) abcTable abcMapper (bytes "b") false =
      some { id := 2, mapper := abcMapper, db := abcTable, calls := [] } ∧
    HasItem abcMapper (bytes "b") = (2, true) :=
  ⟨(C9_no_create_path (tableDriver anyName) abcTable abcMapper (bytes "zz")).1 (by decide),
    ((C9_no_create_path (tableDriver anyName) abcTable abcMapper (bytes "b")).2 2 (by decide)).1,
    ((C9_no_create_path (tableDriver anyName) abcTable abcMapper (bytes "b")).2 2 (by decide)).2⟩

/-- Claim C10.  Truncation determinism: for every mapper state, every store and
every key `k` with `len(k) > maxKeySize`, `IdFromItem(k, true)` has the same
outcome (returned id, statements sent, resulting mapper and store, or the same
abort) as `IdFromItem(k[:maxKeySize], true)`; hence every other key longer than
`maxKeySize` with the same first `maxKeySize` positions has that outcome too. -/
theorem C10_truncation_determinism {σ : Type} (d : Driver σ) (db : σ) (m : IdMapper) (k : GoString)
    (h : k.length > m.maxKeySize) :
    IdFromItem d db m k true = IdFromItem d db m (slice k m.maxKeySize) true ∧
    ∀ k2 : GoString, k2.length > m.maxKeySize → slice k2 m.maxKeySize = slice k m.maxKeySize →
      IdFromItem d db m k2 true = IdFromItem d db m k true := by
  constructor
  · rw [← truncate_of_gt _ _ h, IdFromItem_truncate]
  · intro k2 h2 hs
    rw [← IdFromItem_truncate d db m k2, ← IdFromItem_truncate d db m k,
      truncate_of_gt _ _ h, truncate_of_gt _ _ h2, hs]

/-- Witness of `C10_truncation_determinism` on a column of two bytes: `éa`, three
bytes long, is handled as its first two bytes `é`, which the mapper holds under
id 1, and so is `éb`. -/
theorem C10_truncation_determinism_witness :
    (bytes "éa").length > narrowMapper.maxKeySize ∧
    (IdFromItem (tableDriver anyName) emptyTable narrowMapper (bytes "éa") true).map
      (fun r => (r.id, r.calls)) = some (1, []) ∧
    IdFromItem (tableDriver anyName) emptyTable narrowMapper (bytes "éa") true =
      IdFromItem (tableDriver anyName) emptyTable narrowMapper (slice (bytes "éa") 2) true ∧
    IdFromItem (tableDriver anyName) emptyTable narrowMapper (bytes "éb") true =
      IdFromItem (tableDriver anyName) emptyTable narrowMapper (bytes "éa") true :=
  ⟨by decide, by decide,
    (C10_truncation_determinism (tableDriver anyName) emptyTable narrowMapper (bytes "éa")
      (by decide)).1,
    (C10_truncation_determinism (tableDriver anyName) emptyTable narrowMapper (bytes "éa")
      (by decide)).2 (bytes "éb") (by decide) (by decide)⟩

/-! ### Completeness of the bulk load -/

theorem same_name_same_id {rs : List (Nat × GoString)} (hn : (rs.map Prod.snd).Nodup)
    {a b : Nat} {s : GoString} (ha : (a, s) ∈ rs) (hb : (b, s) ∈ rs) : a = b := by
  have := List.inj_on_of_nodup_map hn ha hb rfl
  exact congrArg Prod.fst this

theorem mapperStep_complete {L : Nat} {done : List (Nat × GoString)} {st : LoadState}
    (hd : DistinctNames done) (hs : LoadSound L st) (h : Complete done st) :
    Complete done (mapperStep st) := by
  unfold mapperStep
  split
  · rename_i hle
    obtain ⟨hl, hL, _, _, _, hc1, _, ht, _⟩ := hs
    obtain ⟨hW, hE, hI, hY⟩ := h
    have hlt : st.cidx < st.id2s.length := by omega
    have hmod : st.cidx % 2 ^ 32 = st.cidx := Nat.mod_eq_of_lt (by omega)
    have hname : st.id2s[st.cidx]? = some (st.id2s.getD st.cidx []) := by
      rw [List.getD_eq_getElem?_getD, List.getElem?_eq_getElem hlt]
      rfl
    refine ⟨hW, hE, hI, ?_⟩
    intro r hr hrc
    simp only at hrc ⊢
    rw [hmod]
    by_cases hrr : r.1 = st.cidx
    · have h1 := hW r hr
      rw [hrr, hname] at h1
      have h2 : st.id2s.getD st.cidx [] = r.2 := by simpa using h1
      rw [h2, mapGet_mapSet_self, hrr]
    · have hold := hY r hr (by omega)
      have hne : r.2 ≠ st.id2s.getD st.cidx [] := by
        intro e
        have hmem := hE st.cidx (st.id2s.getD st.cidx []) hname (by rw [← e]; exact hd.2 r hr)
        rw [← e] at hmem
        exact hrr (same_name_same_id hd.1 (a := r.1) (b := st.cidx) hr hmem)
      rw [mapGet_mapSet_ne _ _ _ _ hne]
      exact hold
  · exact h

theorem mapperRun_complete {L : Nat} {done : List (Nat × GoString)} (n : Nat) {st : LoadState}
    (hd : DistinctNames done) (hs : LoadSound L st) (h : Complete done st) :
    Complete done (mapperRun n st) := by
  induction n generalizing st with
  | zero => exact h
  | succ n ih => exact ih (mapperStep_sound hs) (mapperStep_complete hd hs h)

theorem mapperRun_cidx (n : Nat) (st : LoadState) (h : st.cidx + n = st.target + 1) :
    (mapperRun n st).cidx = st.target + 1 ∧ (mapperRun n st).target = st.target := by
  induction n generalizing st with
  | zero => exact ⟨by simpa using h, rfl⟩
  | succ n ih =>
    have hstep : (mapperStep st).cidx = st.cidx + 1 ∧ (mapperStep st).target = st.target := by
      unfold mapperStep
      rw [if_pos (by omega)]
      exact ⟨rfl, rfl⟩
    have := ih (mapperStep st) (by rw [hstep.1, hstep.2]; omega)
    rw [hstep.2] at this
    exact this

theorem mapperDrain_cidx (st : LoadState) (h : st.cidx ≤ st.target + 1) :
    (mapperDrain st).cidx = st.target + 1 ∧ (mapperDrain st).target = st.target :=
  mapperRun_cidx _ st (by omega)

theorem send_complete {L : Nat} (w : Nat) {done : List (Nat × GoString)} {st : LoadState}
    (hd : DistinctNames done) (hs : LoadSound L st) (h : Complete done st) :
    Complete done (send w st) := by
  unfold send
  split
  · exact h
  · have := mapperRun_complete (st.target + 1 - st.cidx) hd hs h
    simp only [mapperDrain]
    split
    · exact this
    · exact this

theorem distinctNames_left {xs ys : List (Nat × GoString)} (h : DistinctNames (xs ++ ys)) :
    DistinctNames xs := by
  obtain ⟨h1, h2⟩ := h
  rw [List.map_append] at h1
  exact ⟨(List.nodup_append.1 h1).1, fun r hr => h2 r (List.mem_append_left _ hr)⟩

theorem readerStep_complete {L n : Nat} {row : Nat × GoString} {done rest : List (Nat × GoString)}
    {st : LoadState} (hd : DistinctNames (done ++ [row])) (hrow : row.1 < L)
    (hs : LoadSound L st) (hc : LoadConsistent (row :: rest) st) (h : Complete done st) :
    ∃ st1, readerStep n row st = some st1 ∧ Complete (done ++ [row]) st1 := by
  have hs1 := mapperRun_sound n hs
  have hc1 := mapperRun_consistent n hs hc
  obtain ⟨hW, hE, hI, hY⟩ := mapperRun_complete n (distinctNames_left hd) hs h
  obtain ⟨_, hct, hti, hr, _, _⟩ := hc1
  have hgt : (mapperRun n st).idx < row.1 := hr row (List.mem_cons_self _ _)
  have hlen : (mapperRun n st).id2s.length = L := hs1.1
  have hwrite : ∀ c t : Nat, Complete (done ++ [row])
      { mapperRun n st with
        id2s := (mapperRun n st).id2s.set row.1 row.2, idx := row.1, count := c, total := t } := by
    intro c t
    refine ⟨?_, ?_, ?_, ?_⟩
    · intro r hr2
      simp only
      rcases List.mem_append.1 hr2 with h1 | h1
      · have := hI r h1
        rw [List.getElem?_set_ne (by omega)]
        exact hW r h1
      · have : r = row := by simpa using h1
        subst this
        rw [List.getElem?_set_self (by omega)]
    · intro c s hcs hne
      simp only at hcs
      by_cases hcr : c = row.1
      · subst hcr
        rw [List.getElem?_set_self (by omega)] at hcs
        have : row.2 = s := by simpa using hcs
        rw [← this]
        exact List.mem_append_right _ (by simp)
      · rw [List.getElem?_set_ne (fun e => hcr e.symm)] at hcs
        exact List.mem_append_left _ (hE c s hcs hne)
    · intro r hr2
      simp only
      rcases List.mem_append.1 hr2 with h1 | h1
      · have := hI r h1
        omega
      · have : r = row := by simpa using h1
        subst this
        exact le_refl _
    · intro r hr2 hlt
      simp only at hlt ⊢
      rcases List.mem_append.1 hr2 with h1 | h1
      · exact hY r h1 hlt
      · have : r = row := by simpa using h1
        subst this
        omega
  have hsw : LoadSound L
      { mapperRun n st with
        id2s := (mapperRun n st).id2s.set row.1 row.2, idx := row.1,
        count := 0, total := (mapperRun n st).total + ((mapperRun n st).count + 1) } := by
    obtain ⟨hl, hL, hk, hv, hb, hc1, hc, ht, hi⟩ := hs1
    exact ⟨by simpa using hl, hL, hk, hv, hb, hc1, hc, ht, Or.inr (by show row.1 < L; omega)⟩
  rw [readerStep_of_not_left n row st hc.2.2.2.2.2, if_pos (by omega)]
  split
  · exact ⟨_, rfl, send_complete row.1 hd hsw (hwrite _ _)⟩
  · exact ⟨_, rfl, hwrite _ _⟩

theorem readerLoop_complete {L : Nat} (sched : Nat → Nat) (rest : List (Nat × GoString))
    {done : List (Nat × GoString)} {pos : Nat} {st : LoadState}
    (hd : DistinctNames (done ++ rest)) (hL : ∀ r ∈ rest, r.1 < L) (hs : LoadSound L st)
    (hc : LoadConsistent rest st) (h : Complete done st) :
    ∃ st1, readerLoop sched pos rest st = some st1 ∧ Complete (done ++ rest) st1 ∧
      LoadSound L st1 ∧ LoadConsistent [] st1 := by
  induction rest generalizing done pos st with
  | nil => exact ⟨st, rfl, by simpa using h, hs, hc⟩
  | cons row rest ih =>
    have hsplit : done ++ row :: rest = (done ++ [row]) ++ rest := by simp
    rw [hsplit] at hd ⊢
    obtain ⟨st1, hstep, hcomp⟩ := @readerStep_complete L (sched pos) row done rest st
      (distinctNames_left hd) (hL row (List.mem_cons_self _ _)) hs hc h
    obtain ⟨st2, hloop, hfin⟩ := @ih (done ++ [row]) (pos + 1) st1 hd
      (fun r hr => hL r (List.mem_cons_of_mem _ hr)) (readerStep_sound hs hstep)
      (readerStep_consistent hs hc hstep) hcomp
    refine ⟨st2, ?_, hfin⟩
    unfold readerLoop
    rw [hstep]
    exact hloop

theorem loadInit_complete (L late : Nat) : Complete [] (loadInit L late) := by
  refine ⟨by simp, ?_, by simp, by simp⟩
  intro c s hcs hne
  simp only [loadInit, List.getElem?_replicate] at hcs
  split at hcs
  · exact absurd (Option.some.inj hcs).symm hne
  · simp at hcs

theorem pipeline_complete {L : Nat} (hL : L ≤ 2 ^ 32) (sched : Schedule)
    (rs : List (Nat × GoString)) (ha : AscendingRows rs) (hd : DistinctNames rs)
    (hb : ∀ r ∈ rs, r.1 < L) :
    ∃ st, pipeline sched rs L = some st ∧
      (∀ r ∈ rs, mapGet r.2 st.s2id = some r.1 ∧ st.id2s[r.1]? = some r.2) ∧
      (∀ k v, mapGet k st.s2id = some v → k ≠ [] → (v, k) ∈ rs) := by
  obtain ⟨st1, hloop, hcomp, hs1, hc1⟩ := @readerLoop_complete L sched.steps rs [] 0
    (loadInit L sched.late) (by simpa using hd) hb (loadInit_sound L sched.late hL)
    (loadInit_consistent L sched.late rs ha) (loadInit_complete L sched.late)
  rw [List.nil_append] at hcomp
  have hpipe : pipeline sched rs L =
      some (send 0 (if st1.idx ≠ 0 then send st1.idx st1 else st1)) := by
    unfold pipeline
    rw [hloop]
  obtain ⟨st1b, st2, hloop2, hst2, hs2, hc2, hidx2, htgt, hst⟩ :=
    pipeline_ascending hL sched rs ha.2 hpipe
  have hst1 : st1b = st1 := by
    rw [hloop] at hloop2
    exact (Option.some.inj hloop2).symm
  subst hst1
  have hcm2 : Complete rs st2 := by
    rw [hst2]
    split
    · exact send_complete _ hd hs1 hcomp
    · exact hcomp
  obtain ⟨hW, hE, hI, hY⟩ := mapperRun_complete (st2.target + 1 - st2.cidx) hd hs2 hcm2
  have hcc := mapperRun_consistent (st2.target + 1 - st2.cidx) hs2 hc2
  have hcidx := (mapperDrain_cidx st2 hc2.2.1).1
  refine ⟨_, hpipe, ?_, ?_⟩
  · intro r hr
    rw [hst]
    refine ⟨hY r hr ?_, hW r hr⟩
    have h1 := hcm2.2.2.1 r hr
    have h2 := ha.1 r hr
    have h3 := htgt (by omega)
    unfold mapperDrain at hcidx
    rw [hcidx]
    omega
  · intro k v hk hne
    rw [hst] at hk
    exact hE v k (hcc.1 k v hk).2 hne

theorem mem_mapKeys_mapGet {k : GoString} {m : GoMap} (h : k ∈ mapKeys m) :
    ∃ v, mapGet k m = some v := by
  induction m with
  | nil => simp [mapKeys] at h
  | cons hd tl ih =>
    obtain ⟨a, w⟩ := hd
    by_cases h1 : k = a
    · exact ⟨w, by simp [mapGet, h1]⟩
    · have h2 : k ∈ mapKeys tl := by
        simp only [mapKeys, List.map_cons, List.mem_cons] at h
        rcases h with h | h
        · exact absurd h h1
        · exact h
      obtain ⟨v, hv⟩ := ih h2
      exact ⟨v, by simp [mapGet, h1, hv]⟩

theorem mapGet_mem_mapKeys {k : GoString} {v : Nat} {m : GoMap} (h : mapGet k m = some v) :
    k ∈ mapKeys m :=
  List.mem_map.2 ⟨(k, v), mapGet_mem h, rfl⟩

/-- Completeness of the bulk load.  For every table whose rows have ids at least
1 that fit the column type, distinct non-empty names of at most `maxKeySize`
bytes, delivered in ascending id order, and for every interleaving of
the two goroutines, `loadFromTable` succeeds, and in the mapper it leaves:
`IdFromItem(name, false)` is the id of every row, `id2s[id]` is its name,
`Items()` holds exactly the row names, and `ItemFromId(id)` returns
`(name, true)` for every row whose id does not exceed `len(s2id)`, which is the
case for all rows when the ids are `1, ..., n`. -/
theorem loadFromTable_complete {σ : Type} (sched : Schedule) (size nmax : Nat)
    (rs : List (Nat × GoString)) (m0 : IdMapper) (d : Driver σ) (db : σ)
    (ha : AscendingRows rs) (hd : DistinctNames rs) (hmax : nmax < 2 ^ 32)
    (hb : ∀ r ∈ rs, r.1 ≤ nmax) (hsz : ∀ r ∈ rs, r.2.length ≤ size) :
    ∃ m, loadFromTable sched
        { size := SizeAnswer.length size, maxIdx := MaxAnswer.value nmax,
          scan := RowsAnswer.rows rs } m0 = LoadResult.loaded m ∧
      (∀ r ∈ rs, IdFromItem d db m r.2 false =
          some { id := r.1, mapper := m, db := db, calls := [] } ∧
        m.id2s[r.1]? = some r.2 ∧
        (r.1 ≤ mapLen m.s2id → ItemFromId m r.1 = some (r.2, true))) ∧
      (∀ s, s ∈ Items m ↔ s ∈ rs.map Prod.snd) ∧
      ((∀ r ∈ rs, r.1 ≤ rs.length) → ∀ r ∈ rs, ItemFromId m r.1 = some (r.2, true)) := by
  obtain ⟨st, hp, hrows, hkeys⟩ := pipeline_complete (L := nmax + 1) (by omega) sched rs ha hd
    (fun r hr => by have := hb r hr; omega)
  have hload := @loadFromTable_of_pipeline sched
    { size := SizeAnswer.length size, maxIdx := MaxAnswer.value nmax,
      scan := RowsAnswer.rows rs } m0 size nmax rs st rfl rfl rfl hp
  refine ⟨_, hload, ?_, ?_, ?_⟩
  · intro r hr
    obtain ⟨h1, h2⟩ := hrows r hr
    have htr : truncate size r.2 = r.2 := truncate_of_le _ _ (hsz r hr)
    refine ⟨?_, h2, ?_⟩
    · simp [IdFromItem, htr, h1]
    · intro hle
      have := ha.1 r hr
      unfold ItemFromId
      simp only at hle ⊢
      rw [if_neg (by omega), h2]
  · intro s
    simp only [Items, List.mem_filter, decide_eq_true_eq, List.mem_map]
    constructor
    · rintro ⟨hk, hlen⟩
      obtain ⟨v, hv⟩ := mem_mapKeys_mapGet hk
      have hne : s ≠ [] := by
        intro e
        rw [e] at hlen
        simp at hlen
      exact ⟨(v, s), hkeys s v hv hne, rfl⟩
    · rintro ⟨r, hr, rfl⟩
      refine ⟨mapGet_mem_mapKeys (hrows r hr).1, ?_⟩
      have hne := hd.2 r hr
      by_contra hlen
      apply hne
      have h0 : r.2.length = 0 := by omega
      exact List.length_eq_zero.1 h0
  · intro hdense r hr
    obtain ⟨h1, h2⟩ := hrows r hr
    have hsub : rs.map Prod.snd ⊆ mapKeys st.s2id := by
      intro s hs
      obtain ⟨r2, hr2, rfl⟩ := List.mem_map.1 hs
      exact mapGet_mem_mapKeys (hrows r2 hr2).1
    have hlen := (List.Nodup.subperm hd.1 hsub).length_le
    simp only [List.length_map, mapKeys] at hlen
    have := ha.1 r hr
    have := hdense r hr
    unfold ItemFromId
    simp only [mapLen]
    rw [if_neg (by omega), h2]


end IdMapperSpec
